import Mathlib

/-!
Verification development for the PDF document-construction engine
(object serializer, document writer/finalizer, standard/embedded font
encoding, and the line-wrapping text layout engine).

The JavaScript source is shallowly embedded: pure functions become Lean
functions, stateful code becomes explicit state passing, machine numbers
become Nat/Int/Rat (IEEE doubles are idealized as exact rationals, with
JS NaN modeled explicitly where a branch depends on it), and byte streams
become lists of Nats (byte values) or Chars.
-/

set_option maxRecDepth 4000

/-! ## Basic rendering utilities

JS template interpolation of integers and `Number.prototype.toString(16)`
are modeled by decimal and hexadecimal digit rendering on lists of
characters. -/

/-- Positional digit rendering loop, fuel-structured so that it reduces
in the kernel; the fuel `n + 1` always suffices. -/
def digitsLoop (base : Nat) : Nat → Nat → List Char
  | 0, _ => []
  | fuel + 1, n =>
    if n < base then [Nat.digitChar n]
    else digitsLoop base fuel (n / base) ++ [Nat.digitChar (n % base)]

/-- Decimal digits of a natural number, most significant first
(rendering of a nonnegative integer by JS template interpolation). -/
def decDigits (n : Nat) : List Char := digitsLoop 10 (n + 1) n

/-- Hexadecimal digits (lowercase), most significant first: the JS
`n.toString(16)` used for glyph codes. -/
def hexDigits (n : Nat) : List Char := digitsLoop 16 (n + 1) n

theorem digitsLoop_fuel {base : Nat} (hb : 2 ≤ base) :
    ∀ n f1 f2, n < f1 → n < f2 → digitsLoop base f1 n = digitsLoop base f2 n := by
  intro n
  induction n using Nat.strong_induction_on with
  | _ n ih =>
    intro f1 f2 h1 h2
    match f1, f2 with
    | g1 + 1, g2 + 1 =>
      show digitsLoop base (g1 + 1) n = digitsLoop base (g2 + 1) n
      unfold digitsLoop
      by_cases hn : n < base
      · rw [if_pos hn, if_pos hn]
      · rw [if_neg hn, if_neg hn]
        have hd : n / base < n := Nat.div_lt_self (by omega) (by omega)
        rw [ih (n / base) hd g1 g2 (by omega) (by omega)]

theorem decDigits_eq (n : Nat) :
    decDigits n = if n < 10 then [Nat.digitChar n]
      else decDigits (n / 10) ++ [Nat.digitChar (n % 10)] := by
  by_cases hn : n < 10
  · rw [if_pos hn]
    unfold decDigits digitsLoop
    rw [if_pos hn]
  · rw [if_neg hn]
    show digitsLoop 10 (n + 1) n = digitsLoop 10 (n / 10 + 1) (n / 10) ++ _
    conv_lhs => unfold digitsLoop
    rw [if_neg hn]
    congr 1
    exact digitsLoop_fuel (by omega) (n / 10) n (n / 10 + 1)
      (Nat.div_lt_self (by omega) (by omega)) (by omega)

theorem hexDigits_eq (n : Nat) :
    hexDigits n = if n < 16 then [Nat.digitChar n]
      else hexDigits (n / 16) ++ [Nat.digitChar (n % 16)] := by
  by_cases hn : n < 16
  · rw [if_pos hn]
    unfold hexDigits digitsLoop
    rw [if_pos hn]
  · rw [if_neg hn]
    show digitsLoop 16 (n + 1) n = digitsLoop 16 (n / 16 + 1) (n / 16) ++ _
    conv_lhs => unfold digitsLoop
    rw [if_neg hn]
    congr 1
    exact digitsLoop_fuel (by omega) (n / 16) n (n / 16 + 1)
      (Nat.div_lt_self (by omega) (by omega)) (by omega)

/-- JS `'...'.slice(-k)`: the last `k` elements of a list. -/
def sliceLast (k : Nat) (l : List Char) : List Char :=
  l.drop (l.length - k)

/-! ## PDFObject.number (source lines 244-249)

```js
static number(n) {
  if (n > -1e21 && n < 1e21) {
    return Math.round(n * 1e6) / 1e6;
  }
  throw new Error(`unsupported number: ${n}`);
}
```

A JS number is modeled as either NaN or an exact rational.  Every
comparison against NaN is false, exactly as in JS, so the NaN case falls
through to the error branch of the source. -/

/-- A JS number: NaN or a finite value (doubles idealized as rationals). -/
inductive JSNum where
  | nan : JSNum
  | num : ℚ → JSNum
deriving DecidableEq, Repr

/-- JS `a < b`: false when either side is NaN. -/
def JSNum.lt : JSNum → JSNum → Bool
  | JSNum.num a, JSNum.num b => decide (a < b)
  | _, _ => false

/-- JS `Math.round`: half-way cases round toward positive infinity. -/
def jsRound (q : ℚ) : ℤ := ⌊q + 1/2⌋

/-- JS `Math.round(n * 1e6) / 1e6` on a finite value. -/
def roundTo6 (q : ℚ) : ℚ := (jsRound (q * 1000000) : ℚ) / 1000000

/-- `PDFObject.number`: guard `n > -1e21 && n < 1e21`, then fixed-point
rounding to 6 decimals; otherwise (including NaN) an error. -/
def PDFObject.number (n : JSNum) : Except String ℚ :=
  if (JSNum.lt (JSNum.num (-(10^21 : ℚ))) n && JSNum.lt n (JSNum.num (10^21 : ℚ))) then
    match n with
    | JSNum.num q => Except.ok (roundTo6 q)
    | JSNum.nan => Except.error "unsupported number: NaN"
  else
    Except.error "unsupported number"

/-! ### Decimal rendering of the rounded value and parseFloat

`PDFObject.number` returns a JS number, which every caller immediately
stringifies by template interpolation.  The rendered form of a value
`m / 10^6` and the `parseFloat` reading of that form are modeled so that
the round trip can be stated. -/

/-- Rendering of the rational `m / 10^6` the way JS stringifies the
corresponding double: an optional minus sign, the integer digits, and,
when the fractional part is nonzero, a point followed by the 6-digit
fraction with trailing zeros removed. -/
def renderFixed6 (m : ℤ) : List Char :=
  let a := m.natAbs
  let ip := a / 1000000
  let fp := a % 1000000
  let sign : List Char := if m < 0 then ['-'] else []
  if fp = 0 then sign ++ decDigits ip
  else
    let frac := (sliceLast 6 (List.replicate 6 '0' ++ decDigits fp)).reverse.dropWhile (· = '0')
    sign ++ decDigits ip ++ ['.'] ++ frac.reverse

/-- Value of a list of decimal digit characters, most significant first. -/
def decValue (l : List Char) : Nat :=
  l.foldl (fun acc c => 10 * acc + (c.toNat - '0'.toNat)) 0

/-- `parseFloat` on the output shape of `renderFixed6`: sign, integer
digits, optional point and fraction digits. -/
def parseFloatCore (rest : List Char) : ℚ :=
  let ipart := rest.takeWhile (fun c => c ≠ '.')
  let fpart := (rest.dropWhile (fun c => c ≠ '.')).drop 1
  (decValue ipart : ℚ) + (decValue fpart : ℚ) / (10 ^ fpart.length : ℚ)

/-- `parseFloat` on the output shape of `renderFixed6`: optional minus
sign, then integer digits, an optional point and fraction digits. -/
def parseFloatM (l : List Char) : ℚ :=
  if l.head? = some '-' then -parseFloatCore (l.drop 1) else parseFloatCore l

/-! ## PDFObject string escaping (source lines 161-214)

```js
const escapableRe = /[\n\r\t\b\f()\\]/g;
const escapable = { '\n': '\\n', '\r': '\\r', '\t': '\\t', '\b': '\\b',
                    '\f': '\\f', '\\': '\\\\', '(': '\\(', ')': '\\)' };
```

A JS string is a sequence of UTF-16 code units, modeled as `List Nat`;
the serializer output is a byte string, also `List Nat`. -/

/-- The eight escapable byte values: LF, CR, TAB, BS, FF, backslash,
open and close parenthesis. -/
def escapableSet : List Nat := [10, 13, 9, 8, 12, 92, 40, 41]

/-- The escape sequence substituted for one escapable byte
(`\n`, `\r`, `\t`, `\b`, `\f`, `\\`, `\(`, `\)`). -/
def escapeByte (b : Nat) : List Nat :=
  if b = 10 then [92, 110]
  else if b = 13 then [92, 114]
  else if b = 9 then [92, 116]
  else if b = 8 then [92, 98]
  else if b = 12 then [92, 102]
  else if b = 92 then [92, 92]
  else if b = 40 then [92, 40]
  else if b = 41 then [92, 41]
  else [b]

/-- `string.replace(escapableRe, c => escapable[c])` over a byte string. -/
def escapeBytes (s : List Nat) : List Nat := s.flatMap escapeByte

/-- The code letter following the backslash in the escape of `b`. -/
def escapeSecond (b : Nat) : Nat :=
  if b = 10 then 110
  else if b = 13 then 114
  else if b = 9 then 116
  else if b = 8 then 98
  else if b = 12 then 102
  else b

/-- Reversal of one escape code letter back to the escaped byte. -/
def unescapeCode (c : Nat) : Nat :=
  if c = 110 then 10
  else if c = 114 then 13
  else if c = 116 then 9
  else if c = 98 then 8
  else if c = 102 then 12
  else c

/-- Reversing the escape sequences in a serialized literal: a backslash
consumes the following code letter, everything else is literal. -/
def unescapeBytes : List Nat → List Nat
  | [] => []
  | [b] => [b]
  | b :: c :: rest =>
    if b = 92 then unescapeCode c :: unescapeBytes rest
    else b :: unescapeBytes (c :: rest)

/-- `swapBytes`-based big-endian UTF-16 encoding with byte order mark:
`Buffer.from('﻿' + string, 'utf16le')` followed by the byte swap,
expressed directly as big-endian bytes of each code unit. -/
def utf16beBytes (units : List Nat) : List Nat :=
  (0xfeff :: units).flatMap (fun u => [u / 256, u % 256])

/-- The String-object branch of `PDFObject.convert` (source lines
195-214): detect a unicode string (any code unit above 0x7f), encode it
as big-endian UTF-16 with BOM if so, escape, and parenthesize.  Returns
the output byte string. -/
def convertString (units : List Nat) : List Nat :=
  let isUnicode := units.any (fun u => decide (0x7f < u))
  let s := if isUnicode then utf16beBytes units else units
  40 :: escapeBytes s ++ [41]

/-! ## StandardFont encoding (AFMFont, source lines 1910-2125)

`encodeText` walks the text code point by code point (stepping over
surrogate pairs), remaps through `WIN_ANSI_MAP`, and renders each output
code as a bare lowercase hex token.  The input text is modeled as its
list of code points. -/

/-- The `WIN_ANSI_MAP` table (source lines 1910-1938). -/
def WIN_ANSI_MAP : List (Nat × Nat) :=
  [(402, 131), (8211, 150), (8212, 151), (8216, 145), (8217, 146),
   (8218, 130), (8220, 147), (8221, 148), (8222, 132), (8224, 134),
   (8225, 135), (8226, 149), (8230, 133), (8364, 128), (8240, 137),
   (8249, 139), (8250, 155), (710, 136), (8482, 153), (338, 140),
   (339, 156), (732, 152), (352, 138), (353, 154), (376, 159),
   (381, 142), (382, 158)]

/-- JS `WIN_ANSI_MAP[codePoint] || codePoint` (all table values are
nonzero, so falsy only on a missing key). -/
def winAnsiRemap (cp : Nat) : Nat := ((WIN_ANSI_MAP.lookup cp).getD cp)

/-- `AFMFont.encodeText` (source lines 2090-2103): one bare hex token
per code point, after WinAnsi remapping. -/
def AFMFont.encodeText (cps : List Nat) : List (List Char) :=
  cps.map (fun cp => hexDigits (winAnsiRemap cp))

/-- The 256-entry glyph name table `characters` (source lines 1939-2011). -/
def characters : List String :=
  List.replicate 32 ".notdef" ++
  ["space", "exclam", "quotedbl", "numbersign",
   "dollar", "percent", "ampersand", "quotesingle",
   "parenleft", "parenright", "asterisk", "plus",
   "comma", "hyphen", "period", "slash",
   "zero", "one", "two", "three",
   "four", "five", "six", "seven",
   "eight", "nine", "colon", "semicolon",
   "less", "equal", "greater", "question",
   "at", "A", "B", "C",
   "D", "E", "F", "G",
   "H", "I", "J", "K",
   "L", "M", "N", "O",
   "P", "Q", "R", "S",
   "T", "U", "V", "W",
   "X", "Y", "Z", "bracketleft",
   "backslash", "bracketright", "asciicircum", "underscore",
   "grave", "a", "b", "c",
   "d", "e", "f", "g",
   "h", "i", "j", "k",
   "l", "m", "n", "o",
   "p", "q", "r", "s",
   "t", "u", "v", "w",
   "x", "y", "z", "braceleft",
   "bar", "braceright", "asciitilde", ".notdef",
   "Euro", ".notdef", "quotesinglbase", "florin",
   "quotedblbase", "ellipsis", "dagger", "daggerdbl",
   "circumflex", "perthousand", "Scaron", "guilsinglleft",
   "OE", ".notdef", "Zcaron", ".notdef",
   ".notdef", "quoteleft", "quoteright", "quotedblleft",
   "quotedblright", "bullet", "endash", "emdash",
   "tilde", "trademark", "scaron", "guilsinglright",
   "oe", ".notdef", "zcaron", "ydieresis",
   "space", "exclamdown", "cent", "sterling",
   "currency", "yen", "brokenbar", "section",
   "dieresis", "copyright", "ordfeminine", "guillemotleft",
   "logicalnot", "hyphen", "registered", "macron",
   "degree", "plusminus", "twosuperior", "threesuperior",
   "acute", "mu", "paragraph", "periodcentered",
   "cedilla", "onesuperior", "ordmasculine", "guillemotright",
   "onequarter", "onehalf", "threequarters", "questiondown",
   "Agrave", "Aacute", "Acircumflex", "Atilde",
   "Adieresis", "Aring", "AE", "Ccedilla",
   "Egrave", "Eacute", "Ecircumflex", "Edieresis",
   "Igrave", "Iacute", "Icircumflex", "Idieresis",
   "Eth", "Ntilde", "Ograve", "Oacute",
   "Ocircumflex", "Otilde", "Odieresis", "multiply",
   "Oslash", "Ugrave", "Uacute", "Ucircumflex",
   "Udieresis", "Yacute", "Thorn", "germandbls",
   "agrave", "aacute", "acircumflex", "atilde",
   "adieresis", "aring", "ae", "ccedilla",
   "egrave", "eacute", "ecircumflex", "edieresis",
   "igrave", "iacute", "icircumflex", "idieresis",
   "eth", "ntilde", "ograve", "oacute",
   "ocircumflex", "otilde", "odieresis", "divide",
   "oslash", "ugrave", "uacute", "ucircumflex",
   "udieresis", "yacute", "thorn", "ydieresis"]

/-- `AFMFont.characterToGlyph` (source lines 2117-2119):
`characters[WIN_ANSI_MAP[character] || character] || '.notdef'`. -/
def AFMFont.characterToGlyph (cp : Nat) : String :=
  ((characters.get? (winAnsiRemap cp)).getD ".notdef")

/-! ## EmbeddedFont glyph subsetting (source lines 36396-36507)

The font program, its `layout` shaping call and its subsetting object are
external collaborators (the `fontkit` dependency).  A shaped glyph is
modeled by the fields the embedding code reads; the subsetting object is
modeled from the spec. -/

/-- A glyph as produced by the external shaping engine: source glyph id,
advance width in font units, and originating code points. -/
structure FKGlyph where
  id : Nat
  advanceWidth : ℚ
  codePoints : List Nat
deriving DecidableEq, Repr

/-- External font program data read by the `EmbeddedFont` constructor. -/
structure FKFont where
  unitsPerEm : ℚ
  notdefAdvance : ℚ
deriving DecidableEq, Repr

/-- Modelled from the spec: the external subsetting object
(`includeGlyph(id) -> compact id`).  Glyph id 0 (notdef) is pre-seeded;
a source glyph id already present returns its existing position, a new
one is appended at the next sequential position. -/
structure FKSubset where
  glyphs : List Nat
deriving DecidableEq, Repr

/-- Modelled from the spec: the freshly created subset, holding notdef. -/
def FKSubset.create : FKSubset := ⟨[0]⟩

/-- Modelled from the spec: `subset.includeGlyph(id)`. -/
def FKSubset.includeGlyph (s : FKSubset) (gid : Nat) : FKSubset × Nat :=
  match s.glyphs.findIdx? (fun g => g = gid) with
  | some k => (s, k)
  | none => (⟨s.glyphs ++ [gid]⟩, s.glyphs.length)

/-- The `EmbeddedFont` state touched by `encode`/`encodeGlyphs`:
`this.subset`, `this.widths`, `this.unicode`, `this.scale`.  The JS
arrays indexed by compact glyph id (with a `== null` presence test) are
modeled as association lists. -/
structure EmbeddedFont where
  scale : ℚ
  subset : FKSubset
  widths : List (Nat × ℚ)
  unicode : List (Nat × List Nat)
deriving DecidableEq, Repr

/-- The `EmbeddedFont` constructor (source lines 36397-36413):
`subset = font.createSubset(); unicode = [[0]];
widths = [font.getGlyph(0).advanceWidth]; scale = 1000 / font.unitsPerEm`. -/
def EmbeddedFont.create (font : FKFont) : EmbeddedFont :=
  { scale := 1000 / font.unitsPerEm
    subset := FKSubset.create
    widths := [(0, font.notdefAdvance)]
    unicode := [(0, [0])] }

/-- One iteration of the loop shared by `encode` and `encodeGlyphs`
(source lines 36480-36490 and 36495-36505): include the glyph in the
subset, render a 4-hex-digit token of the compact id, and record width
and code points if that compact id has no entry yet. -/
def EmbeddedFont.encodeStep (f : EmbeddedFont) (glyph : FKGlyph) :
    EmbeddedFont × List Char :=
  let p := f.subset.includeGlyph glyph.id
  let gid := p.2
  let tok := sliceLast 4 (['0', '0', '0', '0'] ++ hexDigits gid)
  let widths := if (f.widths.lookup gid).isNone
    then f.widths ++ [(gid, glyph.advanceWidth * f.scale)] else f.widths
  let unicode := if (f.unicode.lookup gid).isNone
    then f.unicode ++ [(gid, glyph.codePoints)] else f.unicode
  ({ f with subset := p.1, widths := widths, unicode := unicode }, tok)

/-- `EmbeddedFont.encodeGlyphs` over a glyph run, threading the state
left to right and collecting one token per glyph; `encode(text)` runs
the same loop on the glyphs returned by the external `layout(text)`
call, so both entry points are this recursion over their glyph list. -/
def EmbeddedFont.encodeGlyphs (f : EmbeddedFont) : List FKGlyph → EmbeddedFont × List (List Char)
  | [] => (f, [])
  | g :: rest =>
    let p := f.encodeStep g
    let q := p.1.encodeGlyphs rest
    (q.1, p.2 :: q.2)

/-- The compact id currently assigned to a source glyph id. -/
def EmbeddedFont.assignedId (f : EmbeddedFont) (gid : Nat) : Option Nat :=
  f.subset.glyphs.findIdx? (fun g => g = gid)

/-- The glyph ids of a run not yet present, in order of first use. -/
def firstUses (existing : List Nat) : List Nat → List Nat
  | [] => []
  | g :: rest =>
    if g ∈ existing then firstUses existing rest
    else g :: firstUses (existing ++ [g]) rest

/-! ## Document writer and finalizer (source lines 39628-39723)

State of the `PDFDocument` writer: the output byte stream (`buf`, with
`_offset` mirrored in `offsetCtr`), the per-id offset table `_offsets`,
the pending counter `_waiting` (an `Int`, since the JS `--` decrement is
not clamped at zero), and the `_ended` flag.  Ghost fields (`endCalled`,
`finLog`, `finOffsets`) record when `_finalize` ran and what it saw;
they influence nothing. -/

/-- Ghost record of one `_finalize` invocation: the pending counter at
entry and whether `end()` had been called. -/
structure FinalizeCall where
  waiting : ℤ
  endCalled : Bool
deriving DecidableEq, Repr

/-- The document writer state. -/
structure DocState where
  offsets : List (Option Nat)
  waiting : ℤ
  ended : Bool
  buf : List Char
  offsetCtr : Nat
  rootId : Nat
  infoId : Nat
  fileId : List Nat
  endCalled : Bool
  finLog : List FinalizeCall
  finOffsets : List (List (Option Nat))
deriving DecidableEq, Repr

/-- A fresh writer: `base` stands for the already-written file header. -/
def DocState.create (rootId infoId : Nat) (fileId : List Nat)
    (base : List Char) : DocState :=
  { offsets := [], waiting := 0, ended := false, buf := base
    offsetCtr := base.length, rootId := rootId, infoId := infoId
    fileId := fileId, endCalled := false, finLog := [], finOffsets := [] }

/-- `document._write` on a string (source lines 39637-39643): a trailing
newline is appended and the offset advances by the byte length. -/
def DocState.writeStr (st : DocState) (s : List Char) : DocState :=
  let data := s ++ ['\n']
  { st with buf := st.buf ++ data, offsetCtr := st.offsetCtr + data.length }

/-- `document._write` on a buffer: raw bytes, no newline. -/
def DocState.writeBuf (st : DocState) (b : List Char) : DocState :=
  { st with buf := st.buf ++ b, offsetCtr := st.offsetCtr + b.length }

/-- `document.ref(data)` (source lines 39628-39633): reserve the next id
(`_offsets.length + 1`), push a `null` offset placeholder, and increment
the pending counter. -/
def DocState.refAlloc (st : DocState) : DocState :=
  { st with offsets := st.offsets ++ [none], waiting := st.waiting + 1 }

/-- One xref offset cell: `` `0000000000${offset}`.slice(-10) `` — a
`null` offset stringifies to `"null"` exactly as in JS. -/
def renderOffsetCell (o : Option Nat) : List Char :=
  let s := match o with
    | some n => decDigits n
    | none => ['n', 'u', 'l', 'l']
  sliceLast 10 (List.replicate 10 '0' ++ s)

/-- `Buffer.prototype.toString('hex')`: two lowercase hex digits per byte. -/
def bufferHex (bytes : List Nat) : List Char :=
  bytes.flatMap (fun b => sliceLast 2 (['0', '0'] ++ hexDigits b))

/-- `PDFObject.convert` of the trailer dictionary
`{Size, Root, Info, ID: [id, id]}` built in `_finalize` (source lines
39706-39716): the dictionary branch joins `/Key value` lines between
`<<` and `>>`; references render as `id 0 R`, buffers as `<hex>`,
the array joins items with spaces. -/
def trailerBytes (n : Nat) (rootId infoId : Nat) (fileId : List Nat) : List Char :=
  "<<\n/Size ".toList ++ decDigits n ++
  "\n/Root ".toList ++ decDigits rootId ++ " 0 R".toList ++
  "\n/Info ".toList ++ decDigits infoId ++ " 0 R".toList ++
  "\n/ID [<".toList ++ bufferHex fileId ++ "> <".toList ++ bufferHex fileId ++
  ">]\n>>".toList

/-- `document._finalize` (source lines 39694-39723): emit `xref`, the
count line, the free entry, one 20-byte entry per allocated id in table
(ascending id) order, then `trailer`, the trailer dictionary,
`startxref`, the xref byte offset, and `%%EOF`. -/
def DocState.finalizeDoc (st : DocState) : DocState :=
  let st := { st with
    finLog := st.finLog ++ [FinalizeCall.mk st.waiting st.endCalled]
    finOffsets := st.finOffsets ++ [st.offsets] }
  let xRefOffset := st.offsetCtr
  let st := st.writeStr "xref".toList
  let st := st.writeStr ("0 ".toList ++ decDigits (st.offsets.length + 1))
  let st := st.writeStr "0000000000 65535 f ".toList
  let st := st.offsets.foldl
    (fun (s : DocState) o => s.writeStr (renderOffsetCell o ++ " 00000 n ".toList)) st
  let st := st.writeStr "trailer".toList
  let st := st.writeStr (trailerBytes (st.offsets.length + 1) st.rootId st.infoId st.fileId)
  let st := st.writeStr "startxref".toList
  let st := st.writeStr (decDigits xRefOffset)
  st.writeStr "%%EOF".toList

/-- `document._refEnd(ref)` (source lines 39648-39654): record the
offset at index `id - 1`, decrement the pending counter, and when it
hits zero with `_ended` set, finalize and clear `_ended`. -/
def DocState.refEnd (st : DocState) (id : Nat) (offset : Nat) : DocState :=
  let st := { st with offsets := st.offsets.set (id - 1) (some offset)
                      waiting := st.waiting - 1 }
  if st.waiting = 0 ∧ st.ended then
    let st := st.finalizeDoc
    { st with ended := false }
  else st

/-- A reference ready to be finalized: its id, the serialized dictionary
(`PDFObject.convert(this.data)`, abstracted as the caller-determined
byte string), and the buffered body chunks. -/
structure RefObj where
  id : Nat
  dataStr : List Char
  chunks : List (List Char)
deriving DecidableEq, Repr

/-- `PDFReference.finalize` (source lines 70-84): record the current
document offset, write `"<id> 0 obj"` (the generation is always 0), the
dictionary, the body chunks between `stream`/`endstream` when nonempty,
`endobj`, then notify the document via `_refEnd`. -/
def DocState.refFinalize (st : DocState) (r : RefObj) : DocState :=
  let offset := st.offsetCtr
  let st := st.writeStr (decDigits r.id ++ " 0 obj".toList)
  let st := st.writeStr r.dataStr
  let st := if r.chunks.isEmpty then st
    else
      let st := st.writeStr "stream".toList
      let st := r.chunks.foldl (fun s c => s.writeBuf c) st
      st.writeStr "\nendstream".toList
  let st := st.writeStr "endobj".toList
  st.refEnd r.id offset

/-- The tail of `document.end()` (source lines 39688-39692): finalize at
once when nothing is pending, otherwise set `_ended`.  The ghost flag
`endCalled` records the call. -/
def DocState.endDoc (st : DocState) : DocState :=
  let st := { st with endCalled := true }
  if st.waiting = 0 then st.finalizeDoc else { st with ended := true }

/-- One externally observable writer action. -/
inductive DocEvent where
  | alloc : DocEvent
  | finish : RefObj → DocEvent
  | close : DocEvent
deriving DecidableEq, Repr

/-- Step the writer by one event. -/
def DocState.step (st : DocState) : DocEvent → DocState
  | DocEvent.alloc => st.refAlloc
  | DocEvent.finish r => st.refFinalize r
  | DocEvent.close => st.endDoc

/-- Run the writer over a trace of events. -/
def runDoc (st : DocState) (evs : List DocEvent) : DocState :=
  evs.foldl DocState.step st

/-! ## Line wrapper and text layout (source lines 36759-37084, 37362-37405)

The `LineWrapper` state machine.  External collaborators are the font
metric (`fw`, the `font.widthOfString(s, fontSize)` composite), the page
geometry and the Unicode line breaker (its output is the `breaks` input
list of `(position, required)` records).  The synchronous EventEmitter
handlers registered on `firstLine`, `lastLine` and `line` are inlined at
their emission points; the one-shot `once('line')` handlers become the
`indentPending`/`lastLinePending` fields.  `PDFNumber` (`Math.fround`)
is the identity under the exact-rational idealization. -/

/-- Text alignment. -/
inductive Align where
  | left | center | right | justify
deriving DecidableEq, Repr

/-- The `options.ellipsis` value: absent/false, `true`, or a string. -/
inductive EllOpt where
  | off | auto | str : List Char → EllOpt
deriving DecidableEq, Repr

/-- JS truthiness of the ellipsis option (the empty string is falsy). -/
def EllOpt.truthy : EllOpt → Bool
  | EllOpt.off => false
  | EllOpt.auto => true
  | EllOpt.str s => !s.isEmpty

/-- `SOFT_HYPHEN` (U+00AD). -/
def SOFT_HYPHEN : Char := '­'

/-- `HYPHEN`. -/
def HYPHEN : Char := '-'

/-- External inputs and immutable options of one `text()` call. -/
structure WrapCtx where
  fw : List Char → ℚ
  optCS : Option ℚ
  optWS : Option ℚ
  optHS : Option ℚ
  optIndent : Option ℚ
  optEllipsis : Option EllOpt
  optWidth : ℚ
  optHeight : Option ℚ
  optColumns : Option Nat
  optColumnGap : Option ℚ
  optContinued : Bool
  indentAllLines : Bool
  paragraphGap : ℚ
  lineHeight : ℚ
  lineGap : ℚ
  docMaxY : ℚ
  pageTop : ℚ
deriving Inhabited

/-- `document.widthOfString(string, options)` (source lines 37167-37173). -/
def docWidthOfString (ctx : WrapCtx) (cs hs : ℚ) (s : List Char) : ℚ :=
  (ctx.fw s + cs * ((s.length : ℚ) - 1)) * hs / 100

/-- Wrapper and relevant document state. -/
structure LWState where
  x : ℚ
  y : ℚ
  horizontalScaling : ℚ
  indent : ℚ
  characterSpacing : ℚ
  wordSpacing : ℚ
  columns : Nat
  columnGap : ℚ
  lineWidth : ℚ
  spaceLeft : ℚ
  startX : ℚ
  startY : ℚ
  column : Nat
  ellipsis : EllOpt
  continuedX : ℚ
  height : Option ℚ
  maxY : ℚ
  lastLine : Bool
  optAlign : Align
  optTextWidth : ℚ
  optWordCount : Nat
  optLineWidth : ℚ
  indentPending : Option ℚ
  lastLinePending : Option Align
deriving DecidableEq, Repr

/-- The `LineWrapper` constructor (source lines 36769-36793), with the
document cursor at `(docX, docY)`.  Note the source quirk on line 36775:
`wordSpacing` is seeded from the boolean `options.wordSpacing === 0`. -/
def LWState.create (ctx : WrapCtx) (docX docY : ℚ) : LWState :=
  let hs := ctx.optHS.getD 100
  let columns := ctx.optColumns.getD 1
  let columnGap := ctx.optColumnGap.getD 18 * hs / 100
  let lineWidth := (ctx.optWidth * hs / 100 - columnGap * ((columns : ℚ) - 1)) / (columns : ℚ)
  { x := docX, y := docY
    horizontalScaling := hs
    indent := ctx.optIndent.getD 0 * hs / 100
    characterSpacing := ctx.optCS.getD 0 * hs / 100
    wordSpacing := (if ctx.optWS = some 0 then 1 else 0) * hs / 100
    columns := columns
    columnGap := columnGap
    lineWidth := lineWidth
    spaceLeft := lineWidth
    startX := docX
    startY := docY
    column := 1
    ellipsis := ctx.optEllipsis.getD EllOpt.off
    continuedX := 0
    height := ctx.optHeight
    maxY := match ctx.optHeight with
      | some h => docY + h
      | none => ctx.docMaxY
    lastLine := false
    optAlign := Align.left
    optTextWidth := 0
    optWordCount := 0
    optLineWidth := 0
    indentPending := none
    lastLinePending := none }

/-- `this.wordWidth(word)` (source lines 36839-36841): the document
width (with the wrapper passed as the options object) plus the scaled
character and word spacing. -/
def wordWidthW (ctx : WrapCtx) (st : LWState) (word : List Char) : ℚ :=
  docWidthOfString ctx st.characterSpacing st.horizontalScaling word
    + st.characterSpacing + st.wordSpacing

/-- `this.canFit(word, w)` (source lines 36842-36847). -/
def canFitW (ctx : WrapCtx) (st : LWState) (word : List Char) (w : ℚ) : Bool :=
  if word.getLast? ≠ some SOFT_HYPHEN then decide (w ≤ st.spaceLeft)
  else decide (w + wordWidthW ctx st [HYPHEN] ≤ st.spaceLeft)

/-- JS `\s` whitespace (the code points occurring in this code base). -/
def jsIsWs (c : Char) : Bool :=
  c = ' ' || c = '\t' || c = '\n' || c = '\r' || c = '\x0b' || c = '\x0c'

/-- `String.prototype.trim`. -/
def jsTrim (s : List Char) : List Char :=
  ((s.dropWhile jsIsWs).reverse.dropWhile jsIsWs).reverse

/-- Maximal non-whitespace runs of a string. -/
def wsGroups (s : List Char) : List (List Char) :=
  let p := s.foldr
    (fun c (acc : List Char × List (List Char)) =>
      if jsIsWs c then ([], if acc.1.isEmpty then acc.2 else acc.1 :: acc.2)
      else (c :: acc.1, acc.2))
    ([], [])
  if p.1.isEmpty then p.2 else p.1 :: p.2

/-- `text.trim().split(/\s+/)`: splitting the empty string yields one
empty piece, a trimmed nonempty string yields its non-whitespace runs. -/
def jsTrimSplit (s : List Char) : List (List Char) :=
  let t := jsTrim s
  if t.isEmpty then [[]] else wsGroups t

/-- The word-spacing computation of `TextMixin._fragment` (source lines
37382-37405) for the text of one emitted line: `options.wordSpacing || 0`
unless the line is justified and a width was configured, in which case
`max(0, (lineWidth - strippedWidth) / max(1, words - 1) - spaceWidth)`
with `strippedWidth` the width of the text with all whitespace removed
and `spaceWidth = widthOfString(' ') + characterSpacing`. -/
def fragmentWordSpacing (ctx : WrapCtx) (align : Align) (optLineWidth : ℚ)
    (text : List Char) : ℚ :=
  let ws := ctx.optWS.getD 0
  if ctx.optWidth ≠ 0 then
    match align with
    | Align.justify =>
      let words := jsTrimSplit text
      let textWidth := docWidthOfString ctx (ctx.optCS.getD 0) (ctx.optHS.getD 100)
        (text.filter (fun c => !jsIsWs c))
      let spaceWidth := docWidthOfString ctx 0 100 [' '] + ctx.optCS.getD 0
      max 0 ((optLineWidth - textWidth) / max 1 ((words.length : ℚ) - 1) - spaceWidth)
    | _ => ws
  else ws

/-- One emitted line as observed through the `line` event: the buffered
text, the option fields set by `emitLine`, the state of the align/
last-line machinery at emission time, and the word spacing the fragment
renderer applies to it. -/
structure EmittedLine where
  text : List Char
  align : Align
  lastLine : Bool
  textWidth : ℚ
  wordCount : Nat
  lineWidth : ℚ
  spacing : ℚ
  y : ℚ
deriving DecidableEq, Repr

/-- Ghost record of one invocation of the `eachWord` callback. -/
structure FnCall where
  word : List Char
  w : ℚ
  required : Bool
  spaceBefore : ℚ
deriving DecidableEq, Repr

/-- The full state threaded through one `wrap` call: wrapper state plus
the `wrap`-local variables `buffer`, `textWidth`, `wc`, `lc`, the
captured `y`, the emitted lines, and the ghost callback log. -/
structure WrapRun where
  ws : LWState
  buffer : List Char
  textWidth : ℚ
  wc : Nat
  lc : Nat
  yLocal : ℚ
  lines : List EmittedLine
  fnLog : List FnCall
deriving DecidableEq, Repr

/-- Firing the `line` event: the document `_line` handler (fragment
rendering observed as an `EmittedLine`, then the cursor advance), then
the pending one-shot indent undo, then the pending one-shot last-line
undo, in registration order. -/
def fireLine (ctx : WrapCtx) (st : LWState) (buffer : List Char) : LWState :=
  let line : EmittedLine :=
    { text := buffer, align := st.optAlign, lastLine := st.lastLine
      textWidth := st.optTextWidth, wordCount := st.optWordCount
      lineWidth := st.optLineWidth
      spacing := fragmentWordSpacing ctx st.optAlign st.optLineWidth
        (buffer.filter (fun c => c ≠ '\n'))
      y := st.y }
  let st := { st with y := st.y + ctx.lineHeight + ctx.lineGap }
  let st := match st.indentPending with
    | some ind =>
      { st with x := st.x - ind, lineWidth := st.lineWidth + ind
                continuedX := if ctx.optContinued then
                    (if st.continuedX = 0 then st.indent else st.continuedX)
                  else 0
                indentPending := none }
    | none => st
  let st := match st.lastLinePending with
    | some al =>
      { st with y := st.y + ctx.paragraphGap, optAlign := al
                lastLine := false, lastLinePending := none }
    | none => st
  (st, line).1

/-- Firing the `line` event also records the emitted line; packaged at
the `WrapRun` level together with the `emitLine` closure of `wrap`
(source lines 36949-36958): set `options.textWidth`, `options.wordCount`
and `options.lineWidth`, re-capture the document `y`, emit, count. -/
def emitLineR (ctx : WrapCtx) (r : WrapRun) : WrapRun :=
  let ws := { r.ws with
    optTextWidth := r.textWidth + r.ws.wordSpacing * ((r.wc : ℚ) - 1)
    optWordCount := r.wc
    optLineWidth := r.ws.lineWidth }
  let line : EmittedLine :=
    { text := r.buffer, align := ws.optAlign, lastLine := ws.lastLine
      textWidth := ws.optTextWidth, wordCount := ws.optWordCount
      lineWidth := ws.optLineWidth
      spacing := fragmentWordSpacing ctx ws.optAlign ws.optLineWidth
        (r.buffer.filter (fun c => c ≠ '\n'))
      y := ws.y }
  let yL := ws.y
  let ws := fireLine ctx ws r.buffer
  { r with ws := ws, yLocal := yL, lc := r.lc + 1, lines := r.lines ++ [line] }

/-- Firing the `firstLine` event (handler at source lines 36796-36821):
apply the continued/option indent and register its one-shot undo unless
`indentAllLines` is set. -/
def fireFirstLine (ctx : WrapCtx) (st : LWState) : LWState :=
  let ind := if st.continuedX ≠ 0 then st.continuedX else st.indent
  let st := { st with x := st.x + ind, lineWidth := st.lineWidth - ind }
  if ctx.indentAllLines then st else { st with indentPending := some ind }

/-- Firing the `lastLine` event (handler at source lines 36824-36837):
justify falls back to left for this line, the `lastLine` flag is set,
and the one-shot restore is registered. -/
def fireLastLine (st : LWState) : LWState :=
  let al := st.optAlign
  let st := if st.optAlign = Align.justify then { st with optAlign := Align.left } else st
  { st with lastLine := true, lastLinePending := some al }

/-- `this.nextSection()` (source lines 37059-37083): advance to the next
column, or to a new page when columns are exhausted (impossible when a
height cap is configured: then the result is `false`). -/
def nextSectionR (ctx : WrapCtx) (r : WrapRun) : WrapRun × Bool :=
  let ws := { r.ws with column := r.ws.column + 1 }
  if ws.column > ws.columns then
    if ws.height ≠ none then ({ r with ws := ws }, false)
    else
      let ws := { ws with
        column := 1, y := ctx.pageTop, startY := ctx.pageTop
        maxY := ctx.docMaxY, x := ws.startX }
      ({ r with ws := ws }, true)
  else
    let ws := { ws with x := ws.x + ws.lineWidth + ws.columnGap, y := ws.startY }
    ({ r with ws := ws }, true)

/-- `buffer.replace(/\s+$/, '')`. -/
def dropTrailingWs (s : List Char) : List Char :=
  (s.reverse.dropWhile jsIsWs).reverse

/-- The ellipsis trimming loop (source lines 36983-36986): drop one
character (and trailing whitespace) at a time until `buffer + ellipsis`
fits the line width or the buffer is empty. -/
def trimToFit (ctx : WrapCtx) (st : LWState) (ell : List Char) :
    (buffer : List Char) → (tw : ℚ) → List Char × ℚ
  | buffer, tw =>
    if h : buffer.isEmpty = false ∧ tw > st.lineWidth then
      let b := dropTrailingWs buffer.dropLast
      trimToFit ctx st ell b (wordWidthW ctx st (b ++ ell))
    else (buffer, tw)
  termination_by buffer _ => buffer.length
  decreasing_by
    simp only [dropTrailingWs]
    calc ((buffer.dropLast.reverse.dropWhile jsIsWs).reverse).length
        = (buffer.dropLast.reverse.dropWhile jsIsWs).length := List.length_reverse _
      _ ≤ buffer.dropLast.reverse.length := (List.dropWhile_sublist _).length_le
      _ = buffer.dropLast.length := List.length_reverse _
      _ < buffer.length := by
          rw [List.length_dropLast]
          have : buffer ≠ [] := by
            intro he
            rw [he] at h
            exact absurd h.1 (by simp)
          have := List.length_pos.mpr this
          omega

/-- The ellipsis branch of the wrap callback (source lines 36974-36992). -/
def applyEllipsis (ctx : WrapCtx) (r : WrapRun) : WrapRun :=
  if r.ws.height ≠ none ∧ r.ws.ellipsis.truthy
      ∧ r.ws.y + ctx.lineHeight * 2 > r.ws.maxY ∧ r.ws.column ≥ r.ws.columns then
    let r := if r.ws.ellipsis = EllOpt.auto
      then { r with ws := { r.ws with ellipsis := EllOpt.str ['…'] } } else r
    let ell := match r.ws.ellipsis with
      | EllOpt.str s => s
      | _ => []
    let buffer := dropTrailingWs r.buffer
    let tw := wordWidthW ctx r.ws (buffer ++ ell)
    let p := trimToFit ctx r.ws ell buffer tw
    let buffer := if p.2 ≤ r.ws.lineWidth then p.1 ++ ell else p.1
    { r with buffer := buffer, textWidth := wordWidthW ctx r.ws buffer }
  else r

/-- The type of the callback `eachWord` drives (`fn` in the source):
word, measured width, this break record, previous break record; returns
the updated state and the `shouldContinue` flag. -/
def WrapFn : Type :=
  List Char → ℚ → Bool → Option Bool → WrapRun → WrapRun × Bool

/-- The closing state updates of the wrap callback once a line was
emitted (source lines 37024-37035): on a required break reset the space
and clear the buffer, otherwise start the next line with this word. -/
def wrapCallbackReset (word : List Char) (w : ℚ) (bkReq : Bool) (r : WrapRun) :
    WrapRun × Bool :=
  if bkReq then
    ({ r with ws := { r.ws with spaceLeft := r.ws.lineWidth }
              buffer := [], textWidth := 0, wc := 0 }, true)
  else
    ({ r with ws := { r.ws with spaceLeft := r.ws.lineWidth - w }
              buffer := word, textWidth := w, wc := 1 }, true)

/-- The callback `wrap` passes to `eachWord` (source lines 36960-37038),
with the ghost `fnLog` recording each invocation.  The two `canFit`
calls of the source see the same state, hence are evaluated once. -/
def wrapCallback (ctx : WrapCtx) : WrapFn := fun word w bkReq lbk r =>
  let r := { r with fnLog := r.fnLog ++ [FnCall.mk word w bkReq r.ws.spaceLeft] }
  let r := if lbk = none ∨ lbk = some true then
      let r := { r with ws := fireFirstLine ctx r.ws }
      { r with ws := { r.ws with spaceLeft := r.ws.lineWidth } }
    else r
  let fits := canFitW ctx r.ws word w
  let r := if fits then
      { r with buffer := r.buffer ++ word, textWidth := r.textWidth + w, wc := r.wc + 1 }
    else r
  if bkReq ∨ ¬fits then
    let r := applyEllipsis ctx r
    let r := if bkReq then
        let r := if w > r.ws.spaceLeft then
            let r := emitLineR ctx r
            { r with buffer := word, textWidth := w, wc := 1 }
          else r
        { r with ws := fireLastLine r.ws }
      else r
    let r := if r.buffer.getLast? = some SOFT_HYPHEN then
        { r with buffer := r.buffer.dropLast ++ [HYPHEN]
                 ws := { r.ws with
                   spaceLeft := r.ws.spaceLeft - wordWidthW ctx r.ws [HYPHEN] } }
      else r
    let r := emitLineR ctx r
    if r.ws.y + ctx.lineHeight > r.ws.maxY then
      let p := nextSectionR ctx r
      if p.2 then wrapCallbackReset word w bkReq p.1
      else ({ p.1 with wc := 0, buffer := [] }, false)
    else wrapCallbackReset word w bkReq r
  else
    ({ r with ws := { r.ws with spaceLeft := r.ws.spaceLeft - w } }, true)

/-- The prefix-length search loop of the force split (source lines
36879-36888): shrink while the prefix overflows, otherwise grow while
the next prefix still fits; `w` is always the width of the current
`l`-prefix.  The fuel argument stands for the unbounded JS `while`; the
sufficiency of `2 * word.length + 3` is proved below. -/
def growShrink (ww : List Char → ℚ) (sL : ℚ) (word : List Char) :
    Nat → ℤ → ℚ → Bool → Bool → ℤ × ℚ
  | 0, l, w, _, _ => (l, w)
  | fuel + 1, l, w, mustShrink, mightGrow =>
    if mustShrink || mightGrow then
      if mustShrink then
        let l2 := l - 1
        let w2 := ww (word.take l2.toNat)
        growShrink ww sL word fuel l2 w2 (decide (w2 > sL) && decide (l2 > 0)) mightGrow
      else
        let l2 := l + 1
        let w2 := ww (word.take l2.toNat)
        growShrink ww sL word fuel l2 w2 (decide (w2 > sL) && decide (l2 > 0))
          (decide (w2 ≤ sL) && decide (l2 < (word.length : ℤ)))
    else (l, w)

/-- The prefix guess and search of one force-split iteration (source
lines 36866-36888): when the word overflows the remaining space, guess
`ceil(spaceLeft / (w / word.length))` and refine by `growShrink`;
otherwise take the whole word. -/
def adjustFit (ww : List Char → ℚ) (sL : ℚ) (word : List Char) (w : ℚ) : ℤ × ℚ :=
  if w > sL then
    let l : ℤ := ⌈sL / (w / (word.length : ℚ))⌉
    let w2 := ww (word.take l.toNat)
    let mightGrow := decide (w2 ≤ sL) && decide (l < (word.length : ℤ))
    let mustShrink := decide (w2 > sL) && decide (l > 0)
    growShrink ww sL word (2 * word.length + 3) l w2 mustShrink mightGrow
  else ((word.length : ℤ), w)

/-- The force-split loop of `eachWord` (source lines 36863-36908): while
the word is nonempty, find the prefix length, force one character at a
fresh line even when it overflows, pass the piece to the callback with a
required flag unless it is the final piece of an unrequired break, and
continue with the rest.  The fuel stands for the unbounded JS `while`;
`none` (exhaustion) is proven unreachable for the wrap callback. -/
def chopWord (ctx : WrapCtx) (fn : WrapFn) (bkReq : Bool) :
    Nat → List Char → ℚ → Option Bool → WrapRun → Option (WrapRun × Bool)
  | 0, _, _, _, _ => none
  | fuel + 1, word, w, lbk, r =>
    if word.isEmpty then some (r, true)
    else
      let p := adjustFit (wordWidthW ctx r.ws) r.ws.spaceLeft word w
      let l := if p.1 = 0 ∧ r.ws.spaceLeft = r.ws.lineWidth then 1 else p.1
      let req := bkReq || decide (l < (word.length : ℤ))
      let q := fn (word.take l.toNat) p.2 req lbk r
      let word2 := word.drop l.toNat
      let w2 := wordWidthW ctx q.1.ws word2
      if q.2 then chopWord ctx fn bkReq fuel word2 w2 (some false) q.1
      else some (q.1, false)

/-- The body of `eachWord` (source lines 36848-36917): slice the text at
the breaker positions, short-circuit words wider than the whole line
through the force split, and thread the previous break record.  The
word-width cache of the source is semantically transparent (the wrapper
fields `wordWidth` reads are constant across one `wrap`). -/
def eachWordGo (ctx : WrapCtx) (text : List Char) (fn : WrapFn) :
    List (Nat × Bool) → Option (Nat × Bool) → WrapRun → Option WrapRun
  | [], _, r => some r
  | bk :: rest, last, r =>
    let lastPos := match last with
      | some pb => pb.1
      | none => 0
    let word := (text.drop lastPos).take (bk.1 - lastPos)
    let w := wordWidthW ctx r.ws word
    if w > r.ws.lineWidth + r.ws.continuedX then
      match chopWord ctx fn bk.2 (2 * word.length + 3) word w (last.map Prod.snd) r with
      | none => none
      | some q => if q.2 then eachWordGo ctx text fn rest (some bk) q.1 else some q.1
    else
      let q := fn word w bk.2 (last.map Prod.snd) r
      if q.2 then eachWordGo ctx text fn rest (some bk) q.1 else some q.1

/-- The head of `wrap(text, options)` (source lines 36919-36947) on an
already constructed wrapper state: re-apply the option overrides, build
the run-local variables, and avoid an orphan first line. -/
def wrapStart (ctx : WrapCtx) (st : LWState) : WrapRun :=
  let hs := ctx.optHS.getD 100
  let st := { st with horizontalScaling := hs }
  let st := match ctx.optIndent with
    | some i => { st with indent := i * hs / 100 }
    | none => st
  let st := match ctx.optCS with
    | some c => { st with characterSpacing := c * hs / 100 }
    | none => st
  let st := match ctx.optWS with
    | some w => { st with wordSpacing := w * hs / 100 }
    | none => st
  let st := match ctx.optEllipsis with
    | some e => { st with ellipsis := e }
    | none => st
  let r0 : WrapRun :=
    { ws := st, buffer := [], textWidth := 0, wc := 0, lc := 0
      yLocal := st.y, lines := [], fnLog := [] }
  let nextY := r0.ws.y + ctx.lineHeight
  let r0 := if r0.ws.y > r0.ws.maxY ∨ nextY > r0.ws.maxY
    then (nextSectionR ctx r0).1 else r0
  { r0 with yLocal := r0.ws.y }

/-- The tail of `wrap` after `eachWord` returns (source lines 37040-57):
flush the final buffered line through a `lastLine` event and apply the
continued-text bookkeeping. -/
def wrapFinish (ctx : WrapCtx) (r : WrapRun) : WrapRun :=
  let r := if r.wc > 0 then
      let r := { r with ws := fireLastLine r.ws }
      emitLineR ctx r
    else r
  if ctx.optContinued then
    { r with ws := { r.ws with
      continuedX := (if r.lc > 1 then 0 else r.ws.continuedX) + r.ws.optTextWidth
      y := r.yLocal } }
  else
    { r with ws := { r.ws with x := r.ws.startX } }

/-- `wrap(text, options)` (source lines 36919-37057): the preamble,
`eachWord` driven by the wrap callback, then the closing flush. -/
def wrapText (ctx : WrapCtx) (text : List Char) (breaks : List (Nat × Bool))
    (st : LWState) : Option WrapRun :=
  (eachWordGo ctx text (wrapCallback ctx) breaks none (wrapStart ctx st)).map
    (wrapFinish ctx)

/-- Unit-width metric context: every character one unit wide, a ten-unit
line, no spacing options, zero line height (so the height cap is never
hit), a single column. -/
def ctxC4u : WrapCtx :=
  { fw := fun s => (s.length : ℚ)
    optCS := none, optWS := none, optHS := none, optIndent := none
    optEllipsis := none, optWidth := 10, optHeight := none
    optColumns := none, optColumnGap := none, optContinued := false
    indentAllLines := false, paragraphGap := 0, lineHeight := 0
    lineGap := 0, docMaxY := 1, pageTop := 0 }

/-- The wrapper state reached between callback invocations of a
unit-width run: everything fixed except the three `emitLine` option
fields. -/
def wsC4 (tw : ℚ) (wc : Nat) (lw : ℚ) : LWState :=
  { x := 0, y := 0, horizontalScaling := 100, indent := 0
    characterSpacing := 0, wordSpacing := 0, columns := 1, columnGap := 18
    lineWidth := 10, spaceLeft := 10, startX := 0, startY := 0, column := 1
    ellipsis := EllOpt.off, continuedX := 0, height := none, maxY := 1
    lastLine := false, optAlign := Align.left, optTextWidth := tw
    optWordCount := wc, optLineWidth := lw
    indentPending := none, lastLinePending := none }

/-- The line a forced sub-word of `m` unit characters emits in the
unit-width context. -/
def lineC4 (m : Nat) : EmittedLine :=
  { text := List.replicate m 'a', align := Align.left, lastLine := true
    textWidth := (m : ℚ), wordCount := 1, lineWidth := 10, spacing := 0
    y := 0 }

/-- A context with per-character widths 1 (`'a'`, space) and 3 (`'b'`)
and a five-unit line, exercising the force split mid-line. -/
def ctxC4e : WrapCtx :=
  { fw := fun s => (s.map (fun c => if c = 'b' then (3 : ℚ) else 1)).sum
    optCS := none, optWS := none, optHS := none, optIndent := none
    optEllipsis := none, optWidth := 5, optHeight := none
    optColumns := none, optColumnGap := none, optContinued := false
    indentAllLines := false, paragraphGap := 0, lineHeight := 1
    lineGap := 0, docMaxY := 1000, pageTop := 0 }

/-- A wrapper state of the `ctxC4e` run, parametrized by the fields the
run varies: cursor `y`, `spaceLeft`, the three `emitLine` option fields
and the pending indent undo. -/
def wsE (y sl tw : ℚ) (wc : Nat) (lw : ℚ) (ip : Option ℚ) : LWState :=
  { x := 0, y := y, horizontalScaling := 100, indent := 0
    characterSpacing := 0, wordSpacing := 0, columns := 1, columnGap := 18
    lineWidth := 5, spaceLeft := sl, startX := 0, startY := 0, column := 1
    ellipsis := EllOpt.off, continuedX := 0, height := none, maxY := 1000
    lastLine := false, optAlign := Align.left, optTextWidth := tw
    optWordCount := wc, optLineWidth := lw
    indentPending := ip, lastLinePending := none }

/-- One 20-byte xref table entry as written by `_finalize` (offset cell,
`" 00000 n "`, and the newline appended by `_write`). -/
def xrefEntryBytes (o : Option Nat) : List Char :=
  renderOffsetCell o ++ " 00000 n ".toList ++ ['\n']

/-- The bytes `_finalize` appends to the stream, as a function of the
state it reads: offset table, xref byte offset, and trailer inputs. -/
def finalizeBytes (offsets : List (Option Nat)) (xRefOffset : Nat)
    (rootId infoId : Nat) (fileId : List Nat) : List Char :=
  "xref".toList ++ ['\n']
  ++ "0 ".toList ++ decDigits (offsets.length + 1) ++ ['\n']
  ++ "0000000000 65535 f ".toList ++ ['\n']
  ++ offsets.flatMap xrefEntryBytes
  ++ "trailer".toList ++ ['\n']
  ++ trailerBytes (offsets.length + 1) rootId infoId fileId ++ ['\n']
  ++ "startxref".toList ++ ['\n']
  ++ decDigits xRefOffset ++ ['\n']
  ++ "%%EOF".toList ++ ['\n']

/-- The bytes `PDFReference.finalize` writes for one object body. -/
def refObjBytes (r : RefObj) : List Char :=
  decDigits r.id ++ " 0 obj".toList ++ ['\n']
  ++ r.dataStr ++ ['\n']
  ++ (if r.chunks.isEmpty then []
      else "stream".toList ++ ['\n'] ++ r.chunks.flatMap (fun c => c)
        ++ "\nendstream".toList ++ ['\n'])
  ++ "endobj".toList ++ ['\n']

/-- The trace of a run that allocates `n` objects, finalizes them in the
order given by `objs`, and then calls `end()`. -/
def permTrace (n : Nat) (objs : List RefObj) : List DocEvent :=
  List.replicate n DocEvent.alloc ++ objs.map DocEvent.finish ++ [DocEvent.close]

/-! ## Digit arithmetic lemmas -/

theorem decValue_shift (b : List Char) (acc : Nat) :
    List.foldl (fun a c => 10 * a + (c.toNat - '0'.toNat)) acc b
      = acc * 10 ^ b.length + decValue b := by
  induction b generalizing acc with
  | nil => simp [decValue]
  | cons c t ih =>
    simp only [List.foldl_cons, List.length_cons, decValue]
    rw [ih, ih (10 * 0 + (c.toNat - '0'.toNat))]
    ring

theorem decValue_append (a b : List Char) :
    decValue (a ++ b) = decValue a * 10 ^ b.length + decValue b := by
  unfold decValue
  rw [List.foldl_append]
  exact decValue_shift b _

theorem digitChar_val {d : Nat} (h : d < 10) :
    (Nat.digitChar d).toNat - '0'.toNat = d := by
  interval_cases d <;> decide

theorem digitChar_ne {d : Nat} (h : d < 10) :
    Nat.digitChar d ≠ '.' ∧ Nat.digitChar d ≠ '-' := by
  interval_cases d <;> exact ⟨by decide, by decide⟩

theorem decValue_decDigits (n : Nat) : decValue (decDigits n) = n := by
  induction n using Nat.strong_induction_on with
  | _ n ih =>
    rw [decDigits_eq]
    by_cases h : n < 10
    · rw [if_pos h]
      have hv := digitChar_val h
      have h0 : '0'.toNat = 48 := by decide
      rw [h0] at hv
      simp only [decValue, List.foldl]
      omega
    · rw [if_neg h]
      rw [decValue_append, ih (n / 10) (Nat.div_lt_self (by omega) (by omega))]
      have hm : n % 10 < 10 := Nat.mod_lt _ (by omega)
      have hv := digitChar_val hm
      have h0 : '0'.toNat = 48 := by decide
      rw [h0] at hv
      simp only [decValue, List.foldl, List.length_singleton]
      omega

theorem decDigits_not_mem {n : Nat} {c : Char} (hc : c ∈ decDigits n) :
    c ≠ '.' ∧ c ≠ '-' := by
  induction n using Nat.strong_induction_on with
  | _ n ih =>
    rw [decDigits_eq] at hc
    by_cases h : n < 10
    · rw [if_pos h] at hc
      rw [List.mem_singleton] at hc
      subst hc
      exact digitChar_ne h
    · rw [if_neg h] at hc
      rw [List.mem_append, List.mem_singleton] at hc
      rcases hc with hc | hc
      · exact ih (n / 10) (Nat.div_lt_self (by omega) (by omega)) hc
      · subst hc
        exact digitChar_ne (Nat.mod_lt _ (by omega))

theorem decDigits_length {n k : Nat} (h : n < 10 ^ k) (hk : 1 ≤ k) :
    (decDigits n).length ≤ k := by
  induction k generalizing n with
  | zero => omega
  | succ k ih =>
    rw [decDigits_eq]
    by_cases hn : n < 10
    · rw [if_pos hn]; simp
    · rw [if_neg hn]
      simp only [List.length_append, List.length_singleton]
      have hk1 : 1 ≤ k := by
        by_contra hk0
        have hkz : k = 0 := by omega
        subst hkz
        simp at h
        omega
      have hd : n / 10 < 10 ^ k := by
        rw [pow_succ] at h
        exact Nat.div_lt_of_lt_mul (by omega)
      have := ih hd hk1
      omega

theorem decValue_leading_zeros (k : Nat) (l : List Char) :
    decValue (List.replicate k '0' ++ l) = decValue l := by
  induction k with
  | zero => simp
  | succ k ih =>
    simp only [List.replicate_succ, List.cons_append]
    unfold decValue
    simp only [List.foldl_cons]
    have hz : 10 * 0 + ('0'.toNat - '0'.toNat) = 0 := by decide
    rw [hz]
    exact ih

theorem decValue_trailing_zeros (l : List Char) (t : Nat) :
    decValue (l ++ List.replicate t '0') = decValue l * 10 ^ t := by
  rw [decValue_append]
  have hz : decValue (List.replicate t '0') = 0 := by
    have := decValue_leading_zeros t ([] : List Char)
    simpa [decValue] using this
  simp [hz]

theorem takeWhile_not_dot (a frac : List Char) (h : '.' ∉ a) :
    (a ++ '.' :: frac).takeWhile (fun c => c ≠ '.') = a
    ∧ (a ++ '.' :: frac).dropWhile (fun c => c ≠ '.') = '.' :: frac := by
  induction a with
  | nil =>
    constructor
    · rw [List.nil_append, List.takeWhile_cons]
      simp
    · rw [List.nil_append, List.dropWhile_cons]
      simp
  | cons c t ih =>
    have hc : c ≠ '.' := fun he => h (by simp [he])
    have ht : '.' ∉ t := fun he => h (by simp [he])
    have hr := ih ht
    have hd : (decide (c ≠ '.')) = true := by simp [hc]
    constructor
    · rw [List.cons_append, List.takeWhile_cons, hd]
      rw [if_pos rfl, hr.1]
    · rw [List.cons_append, List.dropWhile_cons, hd]
      rw [if_pos rfl, hr.2]

theorem no_dot_split (l : List Char) (h : '.' ∉ l) :
    l.takeWhile (fun c => c ≠ '.') = l ∧ l.dropWhile (fun c => c ≠ '.') = [] := by
  induction l with
  | nil => simp
  | cons c t ih =>
    have hc : c ≠ '.' := fun he => h (by simp [he])
    have ht : '.' ∉ t := fun he => h (by simp [he])
    have hr := ih ht
    have hd : (decide (c ≠ '.')) = true := by simp [hc]
    constructor
    · rw [List.takeWhile_cons, hd, if_pos rfl, hr.1]
    · rw [List.dropWhile_cons, hd, if_pos rfl, hr.2]

theorem decDigits_ne_nil (n : Nat) : decDigits n ≠ [] := by
  rw [decDigits_eq]
  by_cases h : n < 10
  · rw [if_pos h]; simp
  · rw [if_neg h]; simp

theorem parseFloatM_cons_neg (r : List Char) :
    parseFloatM ('-' :: r) = -parseFloatCore r := by
  unfold parseFloatM
  rw [if_pos (by rw [List.head?_cons])]
  rw [List.drop_one, List.tail_cons]

theorem parseFloatM_no_neg (r : List Char) (h : r.head? ≠ some '-') :
    parseFloatM r = parseFloatCore r := by
  unfold parseFloatM
  rw [if_neg h]

theorem parseFloatCore_no_dot (r : List Char) (h : '.' ∉ r) :
    parseFloatCore r = decValue r := by
  unfold parseFloatCore
  rw [(no_dot_split r h).1, (no_dot_split r h).2]
  simp [decValue]

theorem parseFloatCore_split (a frac : List Char) (h : '.' ∉ a) :
    parseFloatCore (a ++ '.' :: frac)
      = (decValue a : ℚ) + (decValue frac : ℚ) / (10 ^ frac.length : ℚ) := by
  unfold parseFloatCore
  rw [(takeWhile_not_dot a frac h).1, (takeWhile_not_dot a frac h).2]
  rw [List.drop_one, List.tail_cons]

theorem decDigits_head_ne (n : Nat) (rest : List Char) :
    ((decDigits n) ++ rest).head? ≠ some '-' := by
  cases he : decDigits n with
  | nil => exact absurd he (decDigits_ne_nil n)
  | cons c t =>
    rw [List.cons_append, List.head?_cons]
    intro hc
    have hcm : c = '-' := by injection hc
    have : c ∈ decDigits n := by rw [he]; simp
    exact (decDigits_not_mem this).2 hcm

/-- The rendered string of `m / 10^6` parses back to it. -/
theorem parseFloatM_renderFixed6 (m : ℤ) :
    parseFloatM (renderFixed6 m) = (m : ℚ) / 1000000 := by
  set a := m.natAbs with ha
  set ip := a / 1000000 with hip
  set fp := a % 1000000 with hfp
  have hfp6 : fp < 10 ^ 6 := by
    rw [hfp]
    have : a % 1000000 < 1000000 := Nat.mod_lt _ (by norm_num)
    omega
  have hlen : (decDigits fp).length ≤ 6 := decDigits_length hfp6 (by norm_num)
  have hdip : '.' ∉ decDigits ip := fun hmem => (decDigits_not_mem hmem).1 rfl
  have hm : a = ip * 1000000 + fp := by rw [hip, hfp]; omega
  have hvala : ((a : ℚ)) = (ip : ℚ) * 1000000 + fp := by push_cast [hm]; ring
  -- the value of the padded-and-trimmed fraction digits
  have hfrac : ∀ frac : List Char,
      frac = ((sliceLast 6 (List.replicate 6 '0' ++ decDigits fp)).reverse.dropWhile
        (fun c => c = '0')).reverse →
      (decValue frac : ℚ) / (10 ^ frac.length : ℚ) = (fp : ℚ) / 10 ^ 6 := by
    intro frac hfraceq
    set pad6 := sliceLast 6 (List.replicate 6 '0' ++ decDigits fp) with hpad
    have hpadeq : pad6 = List.replicate (6 - (decDigits fp).length) '0' ++ decDigits fp := by
      rw [hpad]
      unfold sliceLast
      rw [List.length_append, List.length_replicate]
      have h1 : 6 + (decDigits fp).length - 6 = (decDigits fp).length := by omega
      rw [h1, List.drop_append_of_le_length (by rw [List.length_replicate]; omega),
        List.drop_replicate]
    have hpadlen : pad6.length = 6 := by
      rw [hpadeq, List.length_append, List.length_replicate]
      omega
    have hpadval : decValue pad6 = fp := by
      rw [hpadeq, decValue_leading_zeros, decValue_decDigits]
    set tw := pad6.reverse.takeWhile (fun c => c = '0') with htw
    set dw := pad6.reverse.dropWhile (fun c => c = '0') with hdw
    have hsplitrev : tw ++ dw = pad6.reverse := by
      rw [htw, hdw]; exact List.takeWhile_append_dropWhile _ _
    have htwrep : tw = List.replicate tw.length '0' := by
      apply List.eq_replicate_of_mem
      intro c hc
      have := List.mem_takeWhile_imp hc
      simpa using this
    have htwrev : tw.reverse = List.replicate tw.length '0' := by
      calc tw.reverse = (List.replicate tw.length '0').reverse := by
            conv_lhs => rw [htwrep]
        _ = List.replicate tw.length '0' := List.reverse_replicate _ _
    have hsplit : pad6 = dw.reverse ++ List.replicate tw.length '0' := by
      have h2 : pad6 = (tw ++ dw).reverse := by rw [hsplitrev, List.reverse_reverse]
      rw [h2, List.reverse_append, htwrev]
    have hfraceq2 : frac = dw.reverse := by rw [hfraceq]
    have hval : fp = decValue frac * 10 ^ tw.length := by
      rw [← hpadval, hsplit, ← hfraceq2, decValue_trailing_zeros]
    have hwlen : frac.length = dw.length := by rw [hfraceq2, List.length_reverse]
    have hlent : frac.length + tw.length = 6 := by
      have h3 := hpadlen
      rw [hsplit, List.length_append, List.length_reverse, List.length_replicate] at h3
      omega
    rw [hval]
    push_cast
    have h10 : (10 : ℚ) ^ frac.length * 10 ^ tw.length = 10 ^ 6 := by
      rw [← pow_add, hlent]
    rw [← h10]
    have hne : (10 : ℚ) ^ frac.length ≠ 0 := by positivity
    field_simp
    ring
  -- now the full rendering
  unfold renderFixed6
  simp only [← ha, ← hip, ← hfp]
  by_cases hz : fp = 0
  · rw [if_pos hz]
    have hmz : a = ip * 1000000 := by omega
    by_cases hneg : m < 0
    · rw [if_pos hneg, List.singleton_append, parseFloatM_cons_neg,
        parseFloatCore_no_dot _ hdip, decValue_decDigits]
      have hma : (m : ℚ) = -(a : ℚ) := by
        have h4 : (m : ℤ) = -(a : ℤ) := by rw [ha]; omega
        exact_mod_cast congrArg (fun z : ℤ => (z : ℚ)) h4
      rw [hma, hvala, hz]
      push_cast
      ring
    · rw [if_neg hneg, List.nil_append,
        parseFloatM_no_neg _ (by
          have := decDigits_head_ne ip []
          rwa [List.append_nil] at this),
        parseFloatCore_no_dot _ hdip, decValue_decDigits]
      have hma : (m : ℚ) = (a : ℚ) := by
        have h4 : (m : ℤ) = (a : ℤ) := by rw [ha]; omega
        exact_mod_cast congrArg (fun z : ℤ => (z : ℚ)) h4
      rw [hma, hvala, hz]
      push_cast
      ring
  · rw [if_neg hz]
    have hfr := hfrac _ rfl
    set frac := ((sliceLast 6 (List.replicate 6 '0' ++ decDigits fp)).reverse.dropWhile
      (fun c => c = '0')).reverse with hfracdef
    by_cases hneg : m < 0
    · rw [if_pos hneg, List.singleton_append]
      have hstep : ('-' :: decDigits ip) ++ ['.'] ++ frac = '-' :: (decDigits ip ++ '.' :: frac) := by
        simp
      rw [hstep, parseFloatM_cons_neg, parseFloatCore_split _ _ hdip,
        decValue_decDigits, hfr]
      have hma : (m : ℚ) = -(a : ℚ) := by
        have h4 : (m : ℤ) = -(a : ℤ) := by rw [ha]; omega
        exact_mod_cast congrArg (fun z : ℤ => (z : ℚ)) h4
      rw [hma, hvala]
      push_cast
      field_simp
      ring
    · rw [if_neg hneg, List.nil_append]
      have hstep : decDigits ip ++ ['.'] ++ frac = decDigits ip ++ '.' :: frac := by
        simp
      rw [hstep, parseFloatM_no_neg _ (decDigits_head_ne ip _),
        parseFloatCore_split _ _ hdip, decValue_decDigits, hfr]
      have hma : (m : ℚ) = (a : ℚ) := by
        have h4 : (m : ℤ) = (a : ℤ) := by rw [ha]; omega
        exact_mod_cast congrArg (fun z : ℤ => (z : ℚ)) h4
      rw [hma, hvala]
      push_cast
      field_simp
      ring

/-! ## Claim C3 -/

/-- C3: for every finite number in the open range (-1e21, 1e21),
`PDFObject.number` succeeds with exactly `Math.round(n * 1e6) / 1e6`;
the rendering of that value carries no decimal point when it is an
integer, and `parseFloat` of the rendering recovers the value exactly.
Every number outside the open range, and NaN, raises an unsupported
number error. -/
theorem C3_number_precision :
    (∀ q : ℚ, -(10 ^ 21) < q → q < 10 ^ 21 →
      PDFObject.number (JSNum.num q) = Except.ok (roundTo6 q)
      ∧ parseFloatM (renderFixed6 (jsRound (q * 1000000))) = roundTo6 q
      ∧ ((roundTo6 q).den = 1 → '.' ∉ renderFixed6 (jsRound (q * 1000000))))
    ∧ (∀ q : ℚ, q ≤ -(10 ^ 21) ∨ 10 ^ 21 ≤ q →
        ∃ msg, PDFObject.number (JSNum.num q) = Except.error msg)
    ∧ (∃ msg, PDFObject.number JSNum.nan = Except.error msg) := by
  refine ⟨?_, ?_, ?_⟩
  · intro q hlo hhi
    have hguard : (JSNum.lt (JSNum.num (-(10 ^ 21 : ℚ))) (JSNum.num q)
        && JSNum.lt (JSNum.num q) (JSNum.num (10 ^ 21 : ℚ))) = true := by
      unfold JSNum.lt
      simp only [Bool.and_eq_true, decide_eq_true_eq]
      exact ⟨hlo, hhi⟩
    refine ⟨?_, ?_, ?_⟩
    · unfold PDFObject.number
      rw [if_pos hguard]
    · rw [parseFloatM_renderFixed6]
      unfold roundTo6
      rfl
    · intro hden
      set m := jsRound (q * 1000000) with hmdef
      have hval : roundTo6 q = (m : ℚ) / 1000000 := rfl
      have hint : ∃ k : ℤ, m = k * 1000000 := by
        refine ⟨(roundTo6 q).num, ?_⟩
        have h1 : ((roundTo6 q).num : ℚ) = roundTo6 q := by
          rw [← Rat.den_eq_one_iff]
          exact hden
        have h2 : ((roundTo6 q).num : ℚ) * 1000000 = (m : ℚ) := by
          rw [h1, hval]
          field_simp
        exact_mod_cast h2.symm
      obtain ⟨k, hk⟩ := hint
      have hfp : m.natAbs % 1000000 = 0 := by
        rw [hk]
        rw [Int.natAbs_mul]
        simp [Nat.mul_mod]
      unfold renderFixed6
      rw [if_pos hfp]
      intro hmem
      rw [List.mem_append] at hmem
      rcases hmem with hmem | hmem
      · by_cases hneg : m < 0
        · rw [if_pos hneg] at hmem
          simp at hmem
        · rw [if_neg hneg] at hmem
          simp at hmem
      · exact (decDigits_not_mem hmem).1 rfl
  · intro q hq
    refine ⟨"unsupported number", ?_⟩
    unfold PDFObject.number
    rw [if_neg]
    unfold JSNum.lt
    simp only [Bool.and_eq_true, decide_eq_true_eq, not_and]
    intro h1 h2
    rcases hq with hq | hq
    · exact absurd h1 (by linarith)
    · exact absurd h2 (by linarith)
  · exact ⟨"unsupported number", by unfold PDFObject.number; rw [if_neg (by unfold JSNum.lt; simp)]⟩

/-- Witness for C3 at the concrete inputs 3/2 and 10^21. -/
theorem C3_number_precision_witness :
    PDFObject.number (JSNum.num (3 / 2)) = Except.ok (roundTo6 (3 / 2))
    ∧ roundTo6 (3 / 2) = 3 / 2
    ∧ (∃ msg, PDFObject.number (JSNum.num (10 ^ 21)) = Except.error msg) := by
  refine ⟨(C3_number_precision.1 (3 / 2) (by norm_num) (by norm_num)).1, ?_,
    C3_number_precision.2.1 (10 ^ 21) (Or.inr le_rfl)⟩
  unfold roundTo6 jsRound
  norm_num

/-! ## Claim C6 -/

theorem escapeByte_ne_nil (b : Nat) : escapeByte b ≠ [] := by
  unfold escapeByte
  repeat' split
  all_goals simp

theorem escapeBytes_nil_iff (s : List Nat) : escapeBytes s = [] ↔ s = [] := by
  constructor
  · intro h
    cases s with
    | nil => rfl
    | cons x t =>
      exfalso
      have he : escapeBytes (x :: t) = escapeByte x ++ escapeBytes t := by
        unfold escapeBytes; rw [List.flatMap_cons]
      rw [he] at h
      exact escapeByte_ne_nil x (List.append_eq_nil.mp h).1
  · intro h
    subst h
    rfl

theorem unescape_escape (s : List Nat) : unescapeBytes (escapeBytes s) = s := by
  induction s with
  | nil => rfl
  | cons b rest ih =>
    have hstep : escapeBytes (b :: rest) = escapeByte b ++ escapeBytes rest := by
      unfold escapeBytes
      rw [List.flatMap_cons]
    rw [hstep]
    by_cases hesc : b ∈ escapableSet
    · have hcase : escapeByte b = [92, escapeSecond b]
          ∧ unescapeCode (escapeSecond b) = b := by
        unfold escapableSet at hesc
        simp only [List.mem_cons, List.not_mem_nil, or_false] at hesc
        rcases hesc with h | h | h | h | h | h | h | h <;> subst h <;> exact ⟨rfl, rfl⟩
      rw [hcase.1, List.cons_append, List.cons_append, List.nil_append]
      rw [unescapeBytes]
      rw [if_pos rfl, hcase.2, ih]
    · have hbs : ¬b = 10 ∧ ¬b = 13 ∧ ¬b = 9 ∧ ¬b = 8 ∧ ¬b = 12 ∧ ¬b = 92
          ∧ ¬b = 40 ∧ ¬b = 41 := by
        unfold escapableSet at hesc
        simp only [List.mem_cons, List.not_mem_nil, or_false, not_or] at hesc
        exact hesc
      have hb : escapeByte b = [b] := by
        unfold escapeByte
        rw [if_neg hbs.1, if_neg hbs.2.1, if_neg hbs.2.2.1, if_neg hbs.2.2.2.1,
          if_neg hbs.2.2.2.2.1, if_neg hbs.2.2.2.2.2.1, if_neg hbs.2.2.2.2.2.2.1,
          if_neg hbs.2.2.2.2.2.2.2]
      rw [hb, List.cons_append, List.nil_append]
      cases hrest : escapeBytes rest with
      | nil =>
        have hrnil : rest = [] := (escapeBytes_nil_iff rest).mp hrest
        subst hrnil
        rfl
      | cons y t =>
        rw [unescapeBytes, if_neg hbs.2.2.2.2.2.1, ← hrest, ih]

/-- C6: on a string whose code units are all at most 0x7F, `convert`
produces the parenthesized literal in which exactly the eight escapable
characters are replaced by their backslash escapes and every other
character appears verbatim, and reversing the escapes recovers the
original string exactly. -/
theorem C6_escaping_invertible (units : List Nat) (h : ∀ u ∈ units, u ≤ 0x7f) :
    convertString units = 40 :: escapeBytes units ++ [41]
    ∧ unescapeBytes (escapeBytes units) = units
    ∧ (∀ u ∈ units, u ∈ escapableSet → escapeByte u = [92, escapeSecond u])
    ∧ (∀ u ∈ units, u ∉ escapableSet → escapeByte u = [u]) := by
  refine ⟨?_, unescape_escape units, ?_, ?_⟩
  · unfold convertString
    have hany : (units.any (fun u => decide (0x7f < u))) = false := by
      rw [List.any_eq_false]
      intro u hu
      simpa using Nat.not_lt.mpr (h u hu)
    rw [hany]
    simp
  · intro u _ hesc
    unfold escapableSet at hesc
    simp only [List.mem_cons, List.not_mem_nil, or_false] at hesc
    rcases hesc with h | h | h | h | h | h | h | h <;> subst h <;> rfl
  · intro u _ hesc
    unfold escapableSet at hesc
    simp only [List.mem_cons, List.not_mem_nil, or_false, not_or] at hesc
    unfold escapeByte
    rw [if_neg hesc.1, if_neg hesc.2.1, if_neg hesc.2.2.1, if_neg hesc.2.2.2.1,
      if_neg hesc.2.2.2.2.1, if_neg hesc.2.2.2.2.2.1, if_neg hesc.2.2.2.2.2.2.1,
      if_neg hesc.2.2.2.2.2.2.2]

/-- Witness for C6 on the string `a(b\` (0x61, 0x28, 0x62, 0x5c). -/
theorem C6_escaping_invertible_witness :
    convertString [97, 40, 98, 92] = 40 :: escapeBytes [97, 40, 98, 92] ++ [41]
    ∧ unescapeBytes (escapeBytes [97, 40, 98, 92]) = [97, 40, 98, 92] := by
  have h := C6_escaping_invertible [97, 40, 98, 92] (by decide)
  exact ⟨h.1, h.2.1⟩

/-! ## Claims C7 and C10 -/

theorem lookup_mem_of_eq_some {l : List (Nat × Nat)} {k v : Nat}
    (h : l.lookup k = some v) : (k, v) ∈ l := by
  induction l with
  | nil => simp [List.lookup] at h
  | cons p t ih =>
    rw [List.lookup] at h
    cases hbeq : (k == p.1) with
    | true =>
      rw [hbeq] at h
      simp only [Option.some.injEq] at h
      have hk : k = p.1 := by simpa using hbeq
      have hp : (k, v) = p := by
        cases p with
        | mk a b =>
          simp only at hk h
          rw [hk, h]
      rw [hp]
      exact List.mem_cons_self _ _
    | false =>
      rw [hbeq] at h
      right
      exact ih h

/-- C7: StandardFont encoding remaps exactly the WinAnsi table entries
into 0x80-0x9F, passes every other code point through unchanged, falls
back to `.notdef` when the glyph slot has no name, and encodes "Hello"
as the byte values 0x48 0x65 0x6C 0x6C 0x6F. -/
theorem C7_standard_font_encoding :
    (∀ cp v : Nat, WIN_ANSI_MAP.lookup cp = some v →
        winAnsiRemap cp = v ∧ 0x80 ≤ v ∧ v ≤ 0x9f)
    ∧ (∀ cp : Nat, WIN_ANSI_MAP.lookup cp = none → winAnsiRemap cp = cp)
    ∧ (∀ cp : Nat, characters.get? (winAnsiRemap cp) = none →
        AFMFont.characterToGlyph cp = ".notdef")
    ∧ AFMFont.encodeText [72, 101, 108, 108, 111]
        = [['4', '8'], ['6', '5'], ['6', 'c'], ['6', 'c'], ['6', 'f']] := by
  refine ⟨?_, ?_, ?_, by decide⟩
  · intro cp v h
    refine ⟨by unfold winAnsiRemap; rw [h]; rfl, ?_⟩
    have hmem := lookup_mem_of_eq_some h
    have hall : ∀ p ∈ WIN_ANSI_MAP, 0x80 ≤ p.2 ∧ p.2 ≤ 0x9f := by decide
    exact hall (cp, v) hmem
  · intro cp h
    unfold winAnsiRemap
    rw [h]
    rfl
  · intro cp h
    unfold AFMFont.characterToGlyph
    rw [h]
    rfl

/-- Witness for C7 at the remapped Euro sign (0x20AC) and at `H`. -/
theorem C7_standard_font_encoding_witness :
    winAnsiRemap 8364 = 128 ∧ 0x80 ≤ 128 ∧ 128 ≤ 0x9f
    ∧ winAnsiRemap 72 = 72
    ∧ AFMFont.characterToGlyph 1000 = ".notdef" := by
  refine ⟨(C7_standard_font_encoding.1 8364 128 (by decide)).1,
    (C7_standard_font_encoding.1 8364 128 (by decide)).2.1,
    (C7_standard_font_encoding.1 8364 128 (by decide)).2.2,
    C7_standard_font_encoding.2.1 72 (by decide),
    C7_standard_font_encoding.2.2.1 1000 (by decide)⟩

theorem hexDigits_ne_nil (n : Nat) : hexDigits n ≠ [] := by
  rw [hexDigits_eq]
  by_cases h : n < 16
  · rw [if_pos h]; simp
  · rw [if_neg h]; simp

theorem hexDigits_length_ge_three {cp : Nat} (h : 0xff < cp) :
    3 ≤ (hexDigits cp).length := by
  rw [hexDigits_eq, if_neg (by omega)]
  rw [hexDigits_eq, if_neg (by omega : ¬cp / 16 < 16)]
  have h1 : hexDigits (cp / 16 / 16) ≠ [] := hexDigits_ne_nil _
  have h2 : 1 ≤ (hexDigits (cp / 16 / 16)).length := by
    cases he : hexDigits (cp / 16 / 16) with
    | nil => exact absurd he h1
    | cons a t => simp
  simp only [List.length_append, List.length_singleton]
  omega

/-- C10: StandardFont encoding renders each output code as bare hex with
no zero padding: the tab character yields a single hex digit, and a code
point above 0xFF absent from the WinAnsi table passes through to a token
longer than two hex digits, so the tokens are not uniformly two-digit
single-byte codes. -/
theorem C10_unpadded_hex_tokens :
    AFMFont.encodeText [9] = [['9']]
    ∧ (∀ cp : Nat, 0xff < cp → WIN_ANSI_MAP.lookup cp = none →
        AFMFont.encodeText [cp] = [hexDigits cp] ∧ 3 ≤ (hexDigits cp).length)
    ∧ AFMFont.encodeText [9, 256] = [['9'], ['1', '0', '0']] := by
  refine ⟨by decide, ?_, by decide⟩
  intro cp hcp hnone
  constructor
  · unfold AFMFont.encodeText
    simp only [List.map_cons, List.map_nil]
    unfold winAnsiRemap
    rw [hnone]
    rfl
  · exact hexDigits_length_ge_three hcp

/-- Witness for C10 at the code point 0x100. -/
theorem C10_unpadded_hex_tokens_witness :
    AFMFont.encodeText [256] = [hexDigits 256] ∧ 3 ≤ (hexDigits 256).length :=
  C10_unpadded_hex_tokens.2.1 256 (by decide) (by decide)

/-! ## Claims C8 and C9 -/

theorem encodeStep_subset (f : EmbeddedFont) (g : FKGlyph) :
    ((f.encodeStep g).1).subset = (f.subset.includeGlyph g.id).1 := rfl

theorem encodeStep_scale (f : EmbeddedFont) (g : FKGlyph) :
    ((f.encodeStep g).1).scale = f.scale := rfl

theorem encodeStep_token (f : EmbeddedFont) (g : FKGlyph) :
    (f.encodeStep g).2
      = sliceLast 4 (['0', '0', '0', '0'] ++ hexDigits (f.subset.includeGlyph g.id).2) := rfl

theorem encodeStep_widths (f : EmbeddedFont) (g : FKGlyph) :
    ((f.encodeStep g).1).widths
      = if (f.widths.lookup (f.subset.includeGlyph g.id).2).isNone
        then f.widths ++ [((f.subset.includeGlyph g.id).2, g.advanceWidth * f.scale)]
        else f.widths := rfl

theorem encodeStep_unicode (f : EmbeddedFont) (g : FKGlyph) :
    ((f.encodeStep g).1).unicode
      = if (f.unicode.lookup (f.subset.includeGlyph g.id).2).isNone
        then f.unicode ++ [((f.subset.includeGlyph g.id).2, g.codePoints)]
        else f.unicode := rfl

theorem findIdx?_append_some {l l2 : List Nat} {p : Nat → Bool} {k : Nat}
    (h : l.findIdx? p = some k) : (l ++ l2).findIdx? p = some k := by
  rw [List.findIdx?_append, h]
  rfl

theorem findIdx?_append_self {l : List Nat} {gid : Nat}
    (h : l.findIdx? (fun g => g = gid) = none) :
    (l ++ [gid]).findIdx? (fun g => g = gid) = some l.length := by
  rw [List.findIdx?_append, h]
  simp [List.findIdx?_cons]

/-- Behavior of `includeGlyph` on both branches. -/
theorem includeGlyph_spec (sub : FKSubset) (gid : Nat) :
    ((sub.glyphs.findIdx? (fun g => g = gid) = none →
        (sub.includeGlyph gid).1.glyphs = sub.glyphs ++ [gid]
        ∧ (sub.includeGlyph gid).2 = sub.glyphs.length)
    ∧ (∀ k, sub.glyphs.findIdx? (fun g => g = gid) = some k →
        (sub.includeGlyph gid).1 = sub ∧ (sub.includeGlyph gid).2 = k)
    ∧ (sub.includeGlyph gid).1.glyphs.findIdx? (fun g => g = gid)
        = some (sub.includeGlyph gid).2) := by
  unfold FKSubset.includeGlyph
  cases hg : sub.glyphs.findIdx? (fun g => g = gid) with
  | some j =>
    refine ⟨fun hc => absurd hc (by simp), fun k hk => ?_, ?_⟩
    · injection hk with hk
      subst hk
      exact ⟨rfl, rfl⟩
    · show sub.glyphs.findIdx? (fun g => g = gid) = some j
      exact hg
  | none =>
    refine ⟨fun _ => ⟨rfl, rfl⟩, fun k hk => absurd hk (by simp), ?_⟩
    show (sub.glyphs ++ [gid]).findIdx? (fun g => g = gid) = some sub.glyphs.length
    exact findIdx?_append_self hg

/-- Compact id assignments never change once made (one step). -/
theorem encodeStep_stable {f : EmbeddedFont} (g : FKGlyph) {gid k : Nat}
    (h : f.assignedId gid = some k) : ((f.encodeStep g).1).assignedId gid = some k := by
  unfold EmbeddedFont.assignedId at h ⊢
  rw [encodeStep_subset]
  unfold FKSubset.includeGlyph
  cases hg : f.subset.glyphs.findIdx? (fun x => x = g.id) with
  | some j => exact h
  | none => exact findIdx?_append_some h

/-- After one step the processed glyph id is assigned, and the emitted
token is the 4-hex rendering of that compact id. -/
theorem encodeStep_assigns (f : EmbeddedFont) (g : FKGlyph) :
    ((f.encodeStep g).1).assignedId g.id = some (f.subset.includeGlyph g.id).2
    ∧ (f.encodeStep g).2 = sliceLast 4 (['0', '0', '0', '0']
        ++ hexDigits ((((f.encodeStep g).1).assignedId g.id).getD 0)) := by
  have hspec := (includeGlyph_spec f.subset g.id).2.2
  have h1 : ((f.encodeStep g).1).assignedId g.id = some (f.subset.includeGlyph g.id).2 := by
    unfold EmbeddedFont.assignedId
    rw [encodeStep_subset]
    exact hspec
  refine ⟨h1, ?_⟩
  rw [encodeStep_token, h1]
  rfl

theorem encodeGlyphs_fst_cons (f : EmbeddedFont) (g : FKGlyph) (rest : List FKGlyph) :
    (f.encodeGlyphs (g :: rest)).1 = ((f.encodeStep g).1.encodeGlyphs rest).1 := rfl

theorem encodeGlyphs_snd_cons (f : EmbeddedFont) (g : FKGlyph) (rest : List FKGlyph) :
    (f.encodeGlyphs (g :: rest)).2
      = (f.encodeStep g).2 :: ((f.encodeStep g).1.encodeGlyphs rest).2 := rfl

/-- Compact id assignments never change across a whole encode call. -/
theorem encodeGlyphs_stable {f : EmbeddedFont} (gs : List FKGlyph) {gid k : Nat}
    (h : f.assignedId gid = some k) : ((f.encodeGlyphs gs).1).assignedId gid = some k := by
  induction gs generalizing f with
  | nil => exact h
  | cons g rest ih =>
    rw [encodeGlyphs_fst_cons]
    exact ih (encodeStep_stable g h)

/-- Every glyph id of the run is assigned after the encode call. -/
theorem encodeGlyphs_covers (f : EmbeddedFont) (gs : List FKGlyph) :
    ∀ g ∈ gs, (((f.encodeGlyphs gs).1).assignedId g.id).isSome := by
  induction gs generalizing f with
  | nil => simp
  | cons g rest ih =>
    intro g2 hg2
    rw [encodeGlyphs_fst_cons]
    rcases List.mem_cons.mp hg2 with hg2 | hg2
    · subst hg2
      rw [encodeGlyphs_stable rest (encodeStep_assigns f g2).1]
      rfl
    · exact ih _ g2 hg2

/-- The emitted tokens are the 4-hex renderings of the final compact id
of each glyph, in run order. -/
theorem encodeGlyphs_tokens (f : EmbeddedFont) (gs : List FKGlyph) :
    (f.encodeGlyphs gs).2
      = gs.map (fun g => sliceLast 4 (['0', '0', '0', '0']
          ++ hexDigits ((((f.encodeGlyphs gs).1).assignedId g.id).getD 0))) := by
  induction gs generalizing f with
  | nil => rfl
  | cons g rest ih =>
    rw [encodeGlyphs_snd_cons, List.map_cons]
    have h1 := (encodeStep_assigns f g).1
    have h2 := encodeGlyphs_stable (f := (f.encodeStep g).1) rest h1
    congr 1
    · rw [(encodeStep_assigns f g).2, encodeGlyphs_fst_cons, h1, h2]
    · rw [ih]
      apply List.map_congr_left
      intro g2 hg2
      rw [encodeGlyphs_fst_cons]

/-- One step grows the subset exactly by the glyph id when new. -/
theorem encodeStep_growth (f : EmbeddedFont) (g : FKGlyph) :
    ((f.encodeStep g).1).subset.glyphs
      = f.subset.glyphs ++ (if g.id ∈ f.subset.glyphs then [] else [g.id]) := by
  rw [encodeStep_subset]
  unfold FKSubset.includeGlyph
  cases hg : f.subset.glyphs.findIdx? (fun x => x = g.id) with
  | some j =>
    have hmem : g.id ∈ f.subset.glyphs := by
      by_contra hnm
      have hnone : f.subset.glyphs.findIdx? (fun x => x = g.id) = none := by
        rw [List.findIdx?_eq_none_iff]
        intro x hx
        simp only [decide_eq_false_iff_not]
        intro he
        exact hnm (he ▸ hx)
      rw [hnone] at hg
      cases hg
    rw [if_pos hmem, List.append_nil]
  | none =>
    have hnm : g.id ∉ f.subset.glyphs := by
      intro hm
      have := List.findIdx?_eq_none_iff.mp hg _ hm
      simp at this
    rw [if_neg hnm]

theorem firstUses_cons (existing : List Nat) (g : Nat) (rest : List Nat) :
    firstUses existing (g :: rest)
      = if g ∈ existing then firstUses existing rest
        else g :: firstUses (existing ++ [g]) rest := rfl

/-- The subset grows by exactly the new ids in first-use order. -/
theorem encodeGlyphs_growth (f : EmbeddedFont) (gs : List FKGlyph) :
    ((f.encodeGlyphs gs).1).subset.glyphs
      = f.subset.glyphs ++ firstUses f.subset.glyphs (gs.map FKGlyph.id) := by
  induction gs generalizing f with
  | nil => simp [EmbeddedFont.encodeGlyphs, firstUses]
  | cons g rest ih =>
    rw [encodeGlyphs_fst_cons, ih, encodeStep_growth, List.map_cons, firstUses_cons]
    by_cases hm : g.id ∈ f.subset.glyphs
    · rw [if_pos hm, if_pos hm, List.append_nil]
    · rw [if_neg hm, if_neg hm, List.append_assoc, List.singleton_append]

/-- C8: compact glyph id assignment is idempotent per font instance:
an assigned id never changes across further encode calls, re-encoding
the same run yields the identical token list, new ids extend the subset
sequentially in first-use order, and position 0 is pre-seeded with
notdef at construction. -/
theorem C8_subset_assignment_idempotent :
    (∀ (f : EmbeddedFont) (gs : List FKGlyph) (gid k : Nat),
        f.assignedId gid = some k → ((f.encodeGlyphs gs).1).assignedId gid = some k)
    ∧ (∀ (f : EmbeddedFont) (gs : List FKGlyph),
        (((f.encodeGlyphs gs).1).encodeGlyphs gs).2 = (f.encodeGlyphs gs).2)
    ∧ (∀ (f : EmbeddedFont) (gs : List FKGlyph),
        ((f.encodeGlyphs gs).1).subset.glyphs
          = f.subset.glyphs ++ firstUses f.subset.glyphs (gs.map FKGlyph.id))
    ∧ (∀ font : FKFont, (EmbeddedFont.create font).subset.glyphs = [0]
        ∧ (EmbeddedFont.create font).assignedId 0 = some 0) := by
  refine ⟨fun f gs gid k h => encodeGlyphs_stable gs h, ?_, encodeGlyphs_growth,
    fun font => ⟨rfl, rfl⟩⟩
  intro f gs
  set f1 := (f.encodeGlyphs gs).1 with hf1
  rw [encodeGlyphs_tokens f1 gs, encodeGlyphs_tokens f gs]
  apply List.map_congr_left
  intro g hg
  have hs := encodeGlyphs_covers f gs g hg
  cases hsome : (f1.assignedId g.id) with
  | none => rw [hf1] at hsome; rw [hsome] at hs; cases hs
  | some k =>
    have h2 : ((f1.encodeGlyphs gs).1).assignedId g.id = some k :=
      encodeGlyphs_stable gs hsome
    rw [h2]

/-- Witness for C8: one glyph run against a fresh font instance. -/
theorem C8_subset_assignment_idempotent_witness :
    ((EmbeddedFont.create (FKFont.mk 1000 500)).encodeGlyphs
        [FKGlyph.mk 7 600 [65]]).1.assignedId 0 = some 0 := by
  exact C8_subset_assignment_idempotent.1 (EmbeddedFont.create (FKFont.mk 1000 500))
    [FKGlyph.mk 7 600 [65]] 0 0 (by decide)

theorem lookup_append_some {α : Type} {l1 l2 : List (Nat × α)} {k : Nat} {v : α}
    (h : l1.lookup k = some v) : (l1 ++ l2).lookup k = some v := by
  rw [List.lookup_append, h]
  rfl

theorem encodeStep_widths_stable {f : EmbeddedFont} {g : FKGlyph} {gid : Nat} {v : ℚ}
    (h : f.widths.lookup gid = some v) :
    ((f.encodeStep g).1).widths.lookup gid = some v := by
  rw [encodeStep_widths]
  split
  · exact lookup_append_some h
  · exact h

theorem encodeStep_unicode_stable {f : EmbeddedFont} {g : FKGlyph} {gid : Nat}
    {u : List Nat} (h : f.unicode.lookup gid = some u) :
    ((f.encodeStep g).1).unicode.lookup gid = some u := by
  rw [encodeStep_unicode]
  split
  · exact lookup_append_some h
  · exact h

/-- C9 counterexample: the constructor records the notdef advance width
raw (in font units), not scaled by 1000/unitsPerEm, so for a font with
2048 units per em the recorded `widths[0]` differs from the scaled
width the claim asserts. -/
theorem C9_counterexample :
    (EmbeddedFont.create (FKFont.mk 2048 500)).widths.lookup 0 = some 500
    ∧ (EmbeddedFont.create (FKFont.mk 2048 500)).scale = 1000 / 2048
    ∧ (500 : ℚ) ≠ 500 * (1000 / 2048) := by
  refine ⟨rfl, rfl, by norm_num⟩

/-- C9 (amended): `widths[gid]` and `unicode[gid]` are written only when
unset, so recorded entries never change for the lifetime of the font
instance; `widths[0]` is seeded at construction with the notdef glyph's
raw (unscaled) advance width and `unicode[0]` with `[0]`, while entries
recorded during encoding carry the width scaled by 1000/unitsPerEm. -/
theorem C9_glyph_metadata_immutable :
    (∀ (f : EmbeddedFont) (gs : List FKGlyph) (gid : Nat) (v : ℚ),
        f.widths.lookup gid = some v → ((f.encodeGlyphs gs).1).widths.lookup gid = some v)
    ∧ (∀ (f : EmbeddedFont) (gs : List FKGlyph) (gid : Nat) (u : List Nat),
        f.unicode.lookup gid = some u → ((f.encodeGlyphs gs).1).unicode.lookup gid = some u)
    ∧ (∀ (f : EmbeddedFont) (g : FKGlyph),
        f.widths.lookup (f.subset.includeGlyph g.id).2 = none →
          ((f.encodeStep g).1).widths.lookup (f.subset.includeGlyph g.id).2
            = some (g.advanceWidth * f.scale))
    ∧ (∀ (f : EmbeddedFont) (g : FKGlyph),
        f.unicode.lookup (f.subset.includeGlyph g.id).2 = none →
          ((f.encodeStep g).1).unicode.lookup (f.subset.includeGlyph g.id).2
            = some g.codePoints)
    ∧ (∀ font : FKFont, (EmbeddedFont.create font).widths.lookup 0 = some font.notdefAdvance
        ∧ (EmbeddedFont.create font).unicode.lookup 0 = some [0]) := by
  refine ⟨?_, ?_, ?_, ?_, fun font => ⟨rfl, rfl⟩⟩
  · intro f gs gid v h
    induction gs generalizing f with
    | nil => exact h
    | cons g rest ih => exact ih _ (encodeStep_widths_stable h)
  · intro f gs gid u h
    induction gs generalizing f with
    | nil => exact h
    | cons g rest ih => exact ih _ (encodeStep_unicode_stable h)
  · intro f g h
    rw [encodeStep_widths, if_pos (by rw [h]; rfl)]
    rw [List.lookup_append, h]
    simp [List.lookup_cons]
  · intro f g h
    rw [encodeStep_unicode, if_pos (by rw [h]; rfl)]
    rw [List.lookup_append, h]
    simp [List.lookup_cons]

/-- Witness for C9 (amended): a concrete width entry survives an encode
call, and a fresh compact id gets a scaled width. -/
theorem C9_glyph_metadata_immutable_witness :
    ((EmbeddedFont.create (FKFont.mk 2048 500)).encodeGlyphs
        [FKGlyph.mk 7 600 [65]]).1.widths.lookup 0 = some 500 := by
  exact C9_glyph_metadata_immutable.1 (EmbeddedFont.create (FKFont.mk 2048 500))
    [FKGlyph.mk 7 600 [65]] 0 500 (by decide)

/-! ## Claims C1 and C2: writer lemmas -/

theorem writeStr_eq_writeBuf (st : DocState) (s : List Char) :
    st.writeStr s = st.writeBuf (s ++ ['\n']) := rfl

theorem writeBuf_writeBuf (st : DocState) (a b : List Char) :
    (st.writeBuf a).writeBuf b = st.writeBuf (a ++ b) := by
  unfold DocState.writeBuf
  simp [List.append_assoc, Nat.add_assoc]

theorem writeBuf_fields (st : DocState) (b : List Char) :
    (st.writeBuf b).offsets = st.offsets
    ∧ (st.writeBuf b).waiting = st.waiting
    ∧ (st.writeBuf b).ended = st.ended
    ∧ (st.writeBuf b).endCalled = st.endCalled
    ∧ (st.writeBuf b).finLog = st.finLog
    ∧ (st.writeBuf b).finOffsets = st.finOffsets
    ∧ (st.writeBuf b).buf = st.buf ++ b
    ∧ (st.writeBuf b).offsetCtr = st.offsetCtr + b.length
    ∧ (st.writeBuf b).rootId = st.rootId
    ∧ (st.writeBuf b).infoId = st.infoId
    ∧ (st.writeBuf b).fileId = st.fileId :=
  ⟨rfl, rfl, rfl, rfl, rfl, rfl, rfl, rfl, rfl, rfl, rfl⟩

theorem foldl_writeStr (g : Option Nat → List Char) :
    ∀ (l : List (Option Nat)) (st : DocState),
      (l.foldl (fun (s : DocState) o => s.writeStr (g o)) st)
        = st.writeBuf (l.flatMap (fun o => g o ++ ['\n'])) := by
  intro l
  induction l with
  | nil =>
    intro st
    show st = st.writeBuf []
    unfold DocState.writeBuf
    simp
  | cons o rest ih =>
    intro st
    simp only [List.foldl_cons, List.flatMap_cons]
    rw [ih, writeStr_eq_writeBuf, writeBuf_writeBuf]

theorem foldl_xref_entries (l : List (Option Nat)) (st : DocState) :
    (l.foldl (fun (s : DocState) o =>
        s.writeStr (renderOffsetCell o ++ " 00000 n ".toList)) st)
      = st.writeBuf (l.flatMap xrefEntryBytes) := by
  induction l generalizing st with
  | nil =>
    show st = st.writeBuf []
    unfold DocState.writeBuf
    simp
  | cons o rest ih =>
    simp only [List.foldl_cons, List.flatMap_cons]
    rw [ih, writeStr_eq_writeBuf, writeBuf_writeBuf]
    unfold xrefEntryBytes
    rw [List.append_assoc]

theorem foldl_writeBuf (l : List (List Char)) (st : DocState) :
    (l.foldl (fun (s : DocState) c => s.writeBuf c) st)
      = st.writeBuf (l.flatMap (fun c => c)) := by
  induction l generalizing st with
  | nil =>
    show st = st.writeBuf []
    unfold DocState.writeBuf
    simp
  | cons c rest ih =>
    simp only [List.foldl_cons, List.flatMap_cons]
    rw [ih, writeBuf_writeBuf]

/-- `_finalize` appends exactly `finalizeBytes` and records the ghost
snapshot; every other field is untouched. -/
theorem finalizeDoc_eq (st : DocState) :
    st.finalizeDoc = { st.writeBuf
        (finalizeBytes st.offsets st.offsetCtr st.rootId st.infoId st.fileId) with
      finLog := st.finLog ++ [FinalizeCall.mk st.waiting st.endCalled]
      finOffsets := st.finOffsets ++ [st.offsets] } := by
  unfold DocState.finalizeDoc
  dsimp only
  rw [foldl_xref_entries]
  simp only [writeStr_eq_writeBuf, writeBuf_writeBuf, DocState.writeBuf]
  cases st
  simp only [DocState.mk.injEq, finalizeBytes]
  constructor
  · simp [List.append_assoc]
  · simp [List.length_append]
    omega

theorem refEnd_no_trigger (st : DocState) (id offset : Nat)
    (h : ¬(st.waiting - 1 = 0 ∧ st.ended = true)) :
    st.refEnd id offset = { st with offsets := st.offsets.set (id - 1) (some offset)
                                    waiting := st.waiting - 1 } := by
  unfold DocState.refEnd
  rw [if_neg]
  simpa using h

theorem refEnd_trigger (st : DocState) (id offset : Nat)
    (h : st.waiting - 1 = 0 ∧ st.ended = true) :
    st.refEnd id offset =
      { ({ st with offsets := st.offsets.set (id - 1) (some offset)
                   waiting := st.waiting - 1 } : DocState).finalizeDoc with
        ended := false } := by
  unfold DocState.refEnd
  rw [if_pos]
  simpa using h

/-- `PDFReference.finalize` is: append the object bytes, then `_refEnd`
with the offset sampled before the header write. -/
theorem refFinalize_eq (st : DocState) (r : RefObj) :
    st.refFinalize r = (st.writeBuf (refObjBytes r)).refEnd r.id st.offsetCtr := by
  unfold DocState.refFinalize
  dsimp only
  by_cases hc : r.chunks.isEmpty
  · rw [if_pos hc]
    have hobj : refObjBytes r
        = decDigits r.id ++ " 0 obj".toList ++ ['\n']
          ++ (r.dataStr ++ ['\n'])
          ++ ("endobj".toList ++ ['\n']) := by
      unfold refObjBytes
      rw [if_pos hc]
      simp [List.append_assoc]
    rw [hobj]
    simp only [writeStr_eq_writeBuf, writeBuf_writeBuf]
    try congr 1
    all_goals simp [List.append_assoc]
  · rw [if_neg hc]
    rw [foldl_writeBuf]
    have hobj : refObjBytes r
        = decDigits r.id ++ " 0 obj".toList ++ ['\n']
          ++ (r.dataStr ++ ['\n'])
          ++ ("stream".toList ++ ['\n']
              ++ r.chunks.flatMap (fun c => c)
              ++ ("\nendstream".toList ++ ['\n']))
          ++ ("endobj".toList ++ ['\n']) := by
      unfold refObjBytes
      rw [if_neg hc]
      simp [List.append_assoc]
    rw [hobj]
    simp only [writeStr_eq_writeBuf, writeBuf_writeBuf]
    try congr 1
    all_goals simp [List.append_assoc]

theorem runDoc_append (st : DocState) (evs1 evs2 : List DocEvent) :
    runDoc st (evs1 ++ evs2) = runDoc (runDoc st evs1) evs2 := by
  unfold runDoc
  rw [List.foldl_append]

theorem allocPhase (n : Nat) (st : DocState) :
    runDoc st (List.replicate n DocEvent.alloc)
      = { st with offsets := st.offsets ++ List.replicate n none
                  waiting := st.waiting + n } := by
  induction n generalizing st with
  | zero =>
    cases st
    simp [runDoc]
  | succ n ih =>
    rw [List.replicate_succ]
    show runDoc st (DocEvent.alloc :: List.replicate n DocEvent.alloc) = _
    unfold runDoc
    rw [List.foldl_cons]
    show runDoc (st.step DocEvent.alloc) (List.replicate n DocEvent.alloc) = _
    rw [ih]
    show ({ st.refAlloc with offsets := st.refAlloc.offsets ++ List.replicate n none
                             waiting := st.refAlloc.waiting + n } : DocState) = _
    unfold DocState.refAlloc
    cases st
    simp only [DocState.mk.injEq]
    constructor
    · simp [List.replicate_succ, List.append_assoc]
    · constructor
      · push_cast
        ring
      · simp

theorem runDoc_cons (st : DocState) (e : DocEvent) (evs : List DocEvent) :
    runDoc st (e :: evs) = runDoc (st.step e) evs := rfl

theorem step_finish (st : DocState) (r : RefObj) :
    st.step (DocEvent.finish r) = st.refFinalize r := rfl

theorem finish_step_eq (st : DocState) (r : RefObj) (he : st.ended = false) :
    st.refFinalize r = DocState.mk (st.offsets.set (r.id - 1) (some st.offsetCtr))
      (st.waiting - 1) st.ended (st.buf ++ refObjBytes r)
      (st.offsetCtr + (refObjBytes r).length) st.rootId st.infoId st.fileId
      st.endCalled st.finLog st.finOffsets := by
  rw [refFinalize_eq, refEnd_no_trigger]
  · cases st
    rfl
  · intro hcon
    rw [(writeBuf_fields st (refObjBytes r)).2.2.1, he] at hcon
    exact absurd hcon.2 (by simp)

theorem finish_run_basic (objs : List RefObj) (st : DocState) (he : st.ended = false) :
    (runDoc st (objs.map DocEvent.finish)).ended = false
    ∧ (runDoc st (objs.map DocEvent.finish)).endCalled = st.endCalled
    ∧ (runDoc st (objs.map DocEvent.finish)).finLog = st.finLog
    ∧ (runDoc st (objs.map DocEvent.finish)).finOffsets = st.finOffsets
    ∧ (runDoc st (objs.map DocEvent.finish)).waiting = st.waiting - objs.length
    ∧ (runDoc st (objs.map DocEvent.finish)).offsets.length = st.offsets.length := by
  induction objs generalizing st with
  | nil =>
    refine ⟨he, rfl, rfl, rfl, by simp [runDoc], rfl⟩
  | cons r rest ih =>
    rw [List.map_cons, runDoc_cons, step_finish, finish_step_eq st r he]
    have ih2 := ih (DocState.mk (st.offsets.set (r.id - 1) (some st.offsetCtr))
      (st.waiting - 1) st.ended (st.buf ++ refObjBytes r)
      (st.offsetCtr + (refObjBytes r).length) st.rootId st.infoId st.fileId
      st.endCalled st.finLog st.finOffsets) he
    refine ⟨ih2.1, ih2.2.1, ih2.2.2.1, ih2.2.2.2.1, ?_, ?_⟩
    · rw [ih2.2.2.2.2.1]
      show st.waiting - 1 - rest.length = st.waiting - (r :: rest).length
      simp
      ring
    · rw [ih2.2.2.2.2.2]
      show (st.offsets.set (r.id - 1) (some st.offsetCtr)).length = _
      rw [List.length_set]

theorem finish_run_untouched (objs : List RefObj) (st : DocState) (i : Nat)
    (he : st.ended = false) (hpos : ∀ r ∈ objs, 1 ≤ r.id)
    (hni : ∀ r ∈ objs, r.id ≠ i + 1) :
    (runDoc st (objs.map DocEvent.finish)).offsets[i]? = st.offsets[i]? := by
  induction objs generalizing st with
  | nil => rfl
  | cons r rest ih =>
    rw [List.map_cons, runDoc_cons, step_finish, finish_step_eq st r he]
    set st2 := DocState.mk (st.offsets.set (r.id - 1) (some st.offsetCtr))
      (st.waiting - 1) st.ended (st.buf ++ refObjBytes r)
      (st.offsetCtr + (refObjBytes r).length) st.rootId st.infoId st.fileId
      st.endCalled st.finLog st.finOffsets with hst2
    rw [ih st2 (show st2.ended = false from he)
      (fun x hx => hpos x (by simp [hx])) (fun x hx => hni x (by simp [hx]))]
    show (st.offsets.set (r.id - 1) (some st.offsetCtr))[i]? = _
    rw [List.getElem?_set_ne]
    have h1 := hpos r (by simp)
    have h2 := hni r (by simp)
    omega

theorem finish_run_keeps_some (objs : List RefObj) (st : DocState) (i : Nat) (o : Nat)
    (he : st.ended = false) (h : st.offsets[i]? = some (some o)) :
    ∃ o2, (runDoc st (objs.map DocEvent.finish)).offsets[i]? = some (some o2) := by
  induction objs generalizing st o with
  | nil => exact ⟨o, h⟩
  | cons r rest ih =>
    rw [List.map_cons, runDoc_cons, step_finish, finish_step_eq st r he]
    by_cases hj : r.id - 1 = i
    · have hlt : i < st.offsets.length := by
        by_contra hge
        rw [List.getElem?_eq_none (by omega)] at h
        cases h
      refine ih _ st.offsetCtr he ?_
      show (st.offsets.set (r.id - 1) (some st.offsetCtr))[i]? = some (some st.offsetCtr)
      rw [hj, List.getElem?_set_eq hlt]
    · refine ih _ o he ?_
      show (st.offsets.set (r.id - 1) (some st.offsetCtr))[i]? = some (some o)
      rw [List.getElem?_set_ne hj]
      exact h

theorem finish_run_covers (objs : List RefObj) (st : DocState) (i : Nat)
    (he : st.ended = false) (hi : i < st.offsets.length)
    (hex : ∃ r ∈ objs, r.id = i + 1) :
    ∃ o, (runDoc st (objs.map DocEvent.finish)).offsets[i]? = some (some o) := by
  induction objs generalizing st with
  | nil => simp at hex
  | cons r rest ih =>
    rw [List.map_cons, runDoc_cons, step_finish, finish_step_eq st r he]
    by_cases hr : r.id = i + 1
    · refine finish_run_keeps_some rest _ i st.offsetCtr he ?_
      show (st.offsets.set (r.id - 1) (some st.offsetCtr))[i]? = some (some st.offsetCtr)
      rw [show r.id - 1 = i by omega, List.getElem?_set_eq hi]
    · rcases hex with ⟨r2, hr2, hid⟩
      rcases List.mem_cons.mp hr2 with hh | hh
      · exact absurd hid (hh ▸ hr)
      · exact ih _ he (by rw [List.length_set] at *; simpa using hi) ⟨r2, hh, hid⟩

theorem prefix_drop_append {a b h : List Char} {o : Nat} (hne : h ≠ [])
    (hp : h <+: a.drop o) : h <+: (a ++ b).drop o := by
  have hnn : a.drop o ≠ [] := by
    intro hnil
    rw [hnil] at hp
    exact hne (List.prefix_nil.mp hp)
  have hle : o ≤ a.length := by
    by_contra hgt
    exact hnn (List.drop_eq_nil_iff.mpr (by omega))
  rw [List.drop_append_of_le_length hle]
  exact hp.trans (List.prefix_append _ _)

/-- The header-at-offset invariant: the offset counter mirrors the
buffer length, and each recorded offset points at its object header. -/
theorem finish_run_headers (objs : List RefObj) (st : DocState)
    (he : st.ended = false) (hpos : ∀ r ∈ objs, 1 ≤ r.id)
    (hctr : st.offsetCtr = st.buf.length)
    (hinv : ∀ i o, st.offsets[i]? = some (some o) →
      (decDigits (i + 1) ++ " 0 obj".toList) <+: st.buf.drop o) :
    (runDoc st (objs.map DocEvent.finish)).offsetCtr
        = (runDoc st (objs.map DocEvent.finish)).buf.length
    ∧ ∀ i o, (runDoc st (objs.map DocEvent.finish)).offsets[i]? = some (some o) →
        (decDigits (i + 1) ++ " 0 obj".toList)
          <+: (runDoc st (objs.map DocEvent.finish)).buf.drop o := by
  induction objs generalizing st with
  | nil => exact ⟨hctr, hinv⟩
  | cons r rest ih =>
    rw [List.map_cons, runDoc_cons, step_finish, finish_step_eq st r he]
    refine ih _ he (fun x hx => hpos x (by simp [hx])) ?_ ?_
    · show st.offsetCtr + (refObjBytes r).length = (st.buf ++ refObjBytes r).length
      rw [List.length_append, hctr]
    · intro i o hio
      rw [show (DocState.mk (st.offsets.set (r.id - 1) (some st.offsetCtr))
        (st.waiting - 1) st.ended (st.buf ++ refObjBytes r)
        (st.offsetCtr + (refObjBytes r).length) st.rootId st.infoId st.fileId
        st.endCalled st.finLog st.finOffsets).offsets
          = st.offsets.set (r.id - 1) (some st.offsetCtr) from rfl] at hio
      show (decDigits (i + 1) ++ " 0 obj".toList) <+: (st.buf ++ refObjBytes r).drop o
      by_cases hj : r.id - 1 = i
      · by_cases hlt : i < st.offsets.length
        · rw [hj, List.getElem?_set_eq hlt] at hio
          injection hio with hio
          injection hio with hio
          subst hio
          rw [hctr, List.drop_left]
          have hid : i + 1 = r.id := by
            have := hpos r (by simp)
            omega
          rw [hid]
          unfold refObjBytes
          refine ⟨['\n'] ++ (r.dataStr ++ ['\n']
            ++ (if r.chunks.isEmpty then []
                else "stream".toList ++ ['\n'] ++ r.chunks.flatMap (fun c => c)
                  ++ "\nendstream".toList ++ ['\n'])
            ++ "endobj".toList ++ ['\n']), ?_⟩
          simp [List.append_assoc]
        · rw [List.getElem?_set, if_pos hj] at hio
          rw [if_neg (by omega)] at hio
          cases hio
      · rw [List.getElem?_set_ne hj] at hio
        exact prefix_drop_append
          (fun hcon => decDigits_ne_nil (i + 1) (List.append_eq_nil.mp hcon).1)
          (hinv i o hio)

theorem endDoc_trigger (st : DocState) (hw : st.waiting = 0) :
    st.endDoc = ({ st with endCalled := true } : DocState).finalizeDoc := by
  unfold DocState.endDoc
  dsimp only
  rw [if_pos hw]

theorem finish_run_buf (objs : List RefObj) (st : DocState) (he : st.ended = false) :
    (runDoc st (objs.map DocEvent.finish)).buf
      = st.buf ++ objs.flatMap refObjBytes := by
  induction objs generalizing st with
  | nil => simp [runDoc]
  | cons r rest ih =>
    rw [List.map_cons, runDoc_cons, step_finish, finish_step_eq st r he,
      List.flatMap_cons]
    set st2 := DocState.mk (st.offsets.set (r.id - 1) (some st.offsetCtr))
      (st.waiting - 1) st.ended (st.buf ++ refObjBytes r)
      (st.offsetCtr + (refObjBytes r).length) st.rootId st.infoId st.fileId
      st.endCalled st.finLog st.finOffsets with hst2
    rw [ih st2 (show st2.ended = false from he)]
    show st.buf ++ refObjBytes r ++ _ = _
    rw [List.append_assoc]

theorem prefix_append_cases {α : Type} {p a b : List α} (h : p <+: a ++ b) :
    p <+: a ∨ ∃ q, q <+: b ∧ p = a ++ q := by
  obtain ⟨t, ht⟩ := h
  rcases List.append_eq_append_iff.mp ht with ⟨a2, ha1, _⟩ | ⟨c2, hc1, hc2⟩
  · exact Or.inl ⟨a2, ha1.symm⟩
  · exact Or.inr ⟨c2, ⟨t, hc2.symm⟩, hc1⟩

/-- C1: in a run that allocates ids 1..n via `ref()`, finalizes them in
an arbitrary order, and calls `end()`, `_finalize` runs exactly once,
at a moment when `end()` had been called and the pending `_waiting`
counter was zero; before the close event the output holds nothing but
the object bodies (no xref bytes); and the single xref emission draws
one entry per allocated id from the offset table in ascending id
(table) order, every slot recorded, independent of the finalize order. -/
theorem C1_finalize_waits_and_orders (n : Nat) (objs : List RefObj) (base : List Char)
    (rootId infoId : Nat) (fileId : List Nat)
    (hperm : (objs.map RefObj.id).Perm (List.range' 1 n)) :
    (runDoc (DocState.create rootId infoId fileId base) (permTrace n objs)).finLog
        = [FinalizeCall.mk 0 true]
    ∧ (runDoc (DocState.create rootId infoId fileId base) (permTrace n objs)).finOffsets
        = [(runDoc (DocState.create rootId infoId fileId base) (permTrace n objs)).offsets]
    ∧ (runDoc (DocState.create rootId infoId fileId base) (permTrace n objs)).offsets.length = n
    ∧ (∀ i, i < n → ∃ o, (runDoc (DocState.create rootId infoId fileId base)
        (permTrace n objs)).offsets[i]? = some (some o))
    ∧ (∀ p, p <+: (List.replicate n DocEvent.alloc ++ objs.map DocEvent.finish) →
        (runDoc (DocState.create rootId infoId fileId base) p).finLog = []
        ∧ ∃ objs2, objs2 <+: objs
            ∧ (runDoc (DocState.create rootId infoId fileId base) p).buf
                = base ++ objs2.flatMap refObjBytes) := by
  set st0 := DocState.create rootId infoId fileId base with hst0
  have hlen : objs.length = n := by
    have h1 := hperm.length_eq
    rw [List.length_map, List.length_range'] at h1
    exact h1
  set stA : DocState := { st0 with offsets := List.replicate n none, waiting := (n : ℤ) }
    with hstA2
  have hstA : runDoc st0 (List.replicate n DocEvent.alloc) = stA := by
    rw [allocPhase, hstA2, hst0]
    unfold DocState.create
    simp
  have heA : stA.ended = false := rfl
  have hbasic := finish_run_basic objs stA heA
  set stF := runDoc stA (objs.map DocEvent.finish) with hstF
  have hw0 : stF.waiting = 0 := by
    rw [hbasic.2.2.2.2.1]
    show (n : ℤ) - objs.length = 0
    rw [hlen]
    ring
  have hsplit : permTrace n objs
      = (List.replicate n DocEvent.alloc ++ objs.map DocEvent.finish) ++ [DocEvent.close] := by
    unfold permTrace
    rw [List.append_assoc]
  have hrunF : runDoc st0 (List.replicate n DocEvent.alloc ++ objs.map DocEvent.finish)
      = stF := by
    rw [runDoc_append, hstA]
  have hfinal : runDoc st0 (permTrace n objs)
      = ({ stF with endCalled := true } : DocState).finalizeDoc := by
    rw [hsplit, runDoc_append, hrunF]
    show stF.endDoc = _
    unfold DocState.endDoc
    dsimp only
    rw [if_pos (show ({ stF with endCalled := true } : DocState).waiting = 0 from hw0)]
  rw [hfinal, finalizeDoc_eq]
  have hfinLog : stF.finLog = [] := by
    rw [hbasic.2.2.1]
    rfl
  have hfinOff : stF.finOffsets = [] := by
    rw [hbasic.2.2.2.1]
    rfl
  have hofflen : stF.offsets.length = n := by
    rw [hbasic.2.2.2.2.2]
    exact List.length_replicate n none
  set stE : DocState := { stF with endCalled := true } with hstE
  have hproj1 : ({ stE.writeBuf (finalizeBytes stE.offsets stE.offsetCtr stE.rootId
      stE.infoId stE.fileId) with
      finLog := stE.finLog ++ [FinalizeCall.mk stE.waiting stE.endCalled]
      finOffsets := stE.finOffsets ++ [stE.offsets] } : DocState).finLog
      = stF.finLog ++ [FinalizeCall.mk stF.waiting true] := rfl
  have hproj2 : ({ stE.writeBuf (finalizeBytes stE.offsets stE.offsetCtr stE.rootId
      stE.infoId stE.fileId) with
      finLog := stE.finLog ++ [FinalizeCall.mk stE.waiting stE.endCalled]
      finOffsets := stE.finOffsets ++ [stE.offsets] } : DocState).finOffsets
      = stF.finOffsets ++ [stF.offsets] := rfl
  have hproj3 : ({ stE.writeBuf (finalizeBytes stE.offsets stE.offsetCtr stE.rootId
      stE.infoId stE.fileId) with
      finLog := stE.finLog ++ [FinalizeCall.mk stE.waiting stE.endCalled]
      finOffsets := stE.finOffsets ++ [stE.offsets] } : DocState).offsets
      = stF.offsets := rfl
  refine ⟨?_, ?_, ?_, ?_, ?_⟩
  · rw [hproj1, hfinLog, hw0, List.nil_append]
  · rw [hproj2, hproj3, hfinOff, List.nil_append]
  · rw [hproj3, hofflen]
  · intro i hi
    rw [hproj3]
    refine finish_run_covers objs stA i heA ?_ ?_
    · show i < (List.replicate n (none : Option Nat)).length
      rw [List.length_replicate]
      exact hi
    · have hmem : i + 1 ∈ objs.map RefObj.id := by
        rw [hperm.mem_iff, List.mem_range'_1]
        omega
      rcases List.mem_map.mp hmem with ⟨r, hr, hid⟩
      exact ⟨r, hr, hid⟩
  · intro p hp
    rcases prefix_append_cases hp with hcase | ⟨q, hq, hpeq⟩
    · have hrep : p = List.replicate p.length DocEvent.alloc :=
        List.eq_replicate_of_mem (fun x hx => List.eq_of_mem_replicate
          (hcase.sublist.subset hx))
      rw [hrep, allocPhase]
      exact ⟨rfl, [], List.nil_prefix, by simp [hst0, DocState.create]⟩
    · obtain ⟨t, hqt⟩ := hq
      rcases List.map_eq_append_iff.mp hqt.symm with ⟨objs2, objs3, hobjs, hm1, _⟩
      rw [hpeq, runDoc_append, hstA, ← hm1]
      refine ⟨?_, objs2, ⟨objs3, hobjs.symm⟩, ?_⟩
      · rw [(finish_run_basic objs2 stA heA).2.2.1]
        rfl
      · rw [finish_run_buf objs2 stA heA]
        rfl

theorem C1_finalize_waits_and_orders_witness :
    (([RefObj.mk 2 "<< /Length 0 >>".toList [], RefObj.mk 1 "<< /Type /Catalog >>".toList []].map
        RefObj.id).Perm (List.range' 1 2))
    ∧ (runDoc (DocState.create 1 2 [7, 7] "%PDF-1.3\n".toList)
        (permTrace 2 [RefObj.mk 2 "<< /Length 0 >>".toList [], RefObj.mk 1 "<< /Type /Catalog >>".toList []])).finLog
        = [FinalizeCall.mk 0 true] :=
  ⟨by decide,
    (C1_finalize_waits_and_orders 2
      [RefObj.mk 2 "<< /Length 0 >>".toList [], RefObj.mk 1 "<< /Type /Catalog >>".toList []]
      "%PDF-1.3\n".toList 1 2 [7, 7] (by decide)).1⟩

theorem finish_run_ids (objs : List RefObj) (st : DocState) (he : st.ended = false) :
    (runDoc st (objs.map DocEvent.finish)).rootId = st.rootId
    ∧ (runDoc st (objs.map DocEvent.finish)).infoId = st.infoId
    ∧ (runDoc st (objs.map DocEvent.finish)).fileId = st.fileId := by
  induction objs generalizing st with
  | nil => exact ⟨rfl, rfl, rfl⟩
  | cons r rest ih =>
    rw [List.map_cons, runDoc_cons, step_finish, finish_step_eq st r he]
    exact ih (DocState.mk (st.offsets.set (r.id - 1) (some st.offsetCtr))
      (st.waiting - 1) st.ended (st.buf ++ refObjBytes r)
      (st.offsetCtr + (refObjBytes r).length) st.rootId st.infoId st.fileId
      st.endCalled st.finLog st.finOffsets) he

theorem renderOffsetCell_length (o : Option Nat) : (renderOffsetCell o).length = 10 := by
  unfold renderOffsetCell sliceLast
  cases o <;> simp <;> omega

theorem xrefEntryBytes_length (o : Option Nat) : (xrefEntryBytes o).length = 20 := by
  unfold xrefEntryBytes
  rw [List.length_append, List.length_append, renderOffsetCell_length]
  rfl

theorem renderOffsetCell_pad (off : Nat) (hlen : (decDigits off).length ≤ 10) :
    renderOffsetCell (some off)
      = List.replicate (10 - (decDigits off).length) '0' ++ decDigits off := by
  unfold renderOffsetCell sliceLast
  show (List.replicate 10 '0' ++ decDigits off).drop
    ((List.replicate 10 '0' ++ decDigits off).length - 10) = _
  rw [List.length_append, List.length_replicate,
    show 10 + (decDigits off).length - 10 = (decDigits off).length from by omega,
    List.drop_append_of_le_length (by rw [List.length_replicate]; omega),
    List.drop_replicate]

/-- C2: in a completed document the byte stream ends with the xref
section `_finalize` appends to the object bodies — `xref`, the count
line `0 N+1`, the free entry, one entry per allocated id in table order,
trailer, `startxref` carrying the byte offset of the xref section, and
`%%EOF`; every entry is exactly 20 bytes with the recorded offset
zero-padded to 10 digits; and each object's recorded offset seeks to
the literal `<id> 0 obj` header inside the final stream. -/
theorem C2_xref_entries_resolve (n : Nat) (objs : List RefObj) (base : List Char)
    (rootId infoId : Nat) (fileId : List Nat)
    (hperm : (objs.map RefObj.id).Perm (List.range' 1 n)) :
    (runDoc (DocState.create rootId infoId fileId base) (permTrace n objs)).buf
        = (base ++ objs.flatMap refObjBytes)
          ++ finalizeBytes
              (runDoc (DocState.create rootId infoId fileId base) (permTrace n objs)).offsets
              (base ++ objs.flatMap refObjBytes).length rootId infoId fileId
    ∧ (runDoc (DocState.create rootId infoId fileId base) (permTrace n objs)).offsets.length = n
    ∧ (∀ o, (xrefEntryBytes o).length = 20)
    ∧ (∀ off, (decDigits off).length ≤ 10 →
        xrefEntryBytes (some off)
          = (List.replicate (10 - (decDigits off).length) '0' ++ decDigits off)
            ++ " 00000 n ".toList ++ ['\n'])
    ∧ (∀ i, i < n → ∃ o,
        (runDoc (DocState.create rootId infoId fileId base) (permTrace n objs)).offsets[i]?
            = some (some o)
        ∧ (decDigits (i + 1) ++ " 0 obj".toList)
            <+: (runDoc (DocState.create rootId infoId fileId base)
                  (permTrace n objs)).buf.drop o) := by
  set st0 := DocState.create rootId infoId fileId base with hst0
  have hlen : objs.length = n := by
    have h1 := hperm.length_eq
    rw [List.length_map, List.length_range'] at h1
    exact h1
  have hpos : ∀ r ∈ objs, 1 ≤ r.id := by
    intro r hr
    have : r.id ∈ List.range' 1 n := by
      rw [← hperm.mem_iff]
      exact List.mem_map.mpr ⟨r, hr, rfl⟩
    exact (List.mem_range'_1.mp this).1
  set stA : DocState := { st0 with offsets := List.replicate n none, waiting := (n : ℤ) }
    with hstA2
  have hstA : runDoc st0 (List.replicate n DocEvent.alloc) = stA := by
    rw [allocPhase, hstA2, hst0]
    unfold DocState.create
    simp
  have heA : stA.ended = false := rfl
  have hbasic := finish_run_basic objs stA heA
  set stF := runDoc stA (objs.map DocEvent.finish) with hstF
  have hbuf : stF.buf = base ++ objs.flatMap refObjBytes := by
    rw [hstF, finish_run_buf objs stA heA]
    rfl
  have hinv0 : ∀ i o, stA.offsets[i]? = some (some o) →
      (decDigits (i + 1) ++ " 0 obj".toList) <+: stA.buf.drop o := by
    intro i o h
    rw [show stA.offsets = List.replicate n none from rfl, List.getElem?_replicate] at h
    split at h
    · simp at h
    · cases h
  have hhdr := finish_run_headers objs stA heA hpos rfl hinv0
  have hctr2 : stF.offsetCtr = (base ++ objs.flatMap refObjBytes).length :=
    hhdr.1.trans (congrArg List.length hbuf)
  have hids := finish_run_ids objs stA heA
  have hw0 : stF.waiting = 0 := by
    rw [hbasic.2.2.2.2.1]
    show (n : ℤ) - objs.length = 0
    rw [hlen]
    ring
  have hofflen : stF.offsets.length = n := by
    rw [hbasic.2.2.2.2.2]
    exact List.length_replicate n none
  have hsplit : permTrace n objs
      = (List.replicate n DocEvent.alloc ++ objs.map DocEvent.finish) ++ [DocEvent.close] := by
    unfold permTrace
    rw [List.append_assoc]
  have hrunF : runDoc st0 (List.replicate n DocEvent.alloc ++ objs.map DocEvent.finish)
      = stF := by
    rw [runDoc_append, hstA]
  have hfinal : runDoc st0 (permTrace n objs)
      = ({ stF with endCalled := true } : DocState).finalizeDoc := by
    rw [hsplit, runDoc_append, hrunF]
    show stF.endDoc = _
    unfold DocState.endDoc
    dsimp only
    rw [if_pos (show ({ stF with endCalled := true } : DocState).waiting = 0 from hw0)]
  rw [hfinal, finalizeDoc_eq]
  set stE : DocState := { stF with endCalled := true } with hstE
  have hprojB : ({ stE.writeBuf (finalizeBytes stE.offsets stE.offsetCtr stE.rootId
      stE.infoId stE.fileId) with
      finLog := stE.finLog ++ [FinalizeCall.mk stE.waiting stE.endCalled]
      finOffsets := stE.finOffsets ++ [stE.offsets] } : DocState).buf
      = stF.buf ++ finalizeBytes stF.offsets stF.offsetCtr stF.rootId stF.infoId stF.fileId :=
    rfl
  have hprojO : ({ stE.writeBuf (finalizeBytes stE.offsets stE.offsetCtr stE.rootId
      stE.infoId stE.fileId) with
      finLog := stE.finLog ++ [FinalizeCall.mk stE.waiting stE.endCalled]
      finOffsets := stE.finOffsets ++ [stE.offsets] } : DocState).offsets
      = stF.offsets := rfl
  have hroot : stF.rootId = rootId := hids.1
  have hinfo : stF.infoId = infoId := hids.2.1
  have hfile : stF.fileId = fileId := hids.2.2
  refine ⟨?_, ?_, xrefEntryBytes_length, ?_, ?_⟩
  · rw [hprojB, hprojO, hbuf, hctr2, hroot, hinfo, hfile]
  · rw [hprojO, hofflen]
  · intro off hoff
    unfold xrefEntryBytes
    rw [renderOffsetCell_pad off hoff]
  · intro i hi
    obtain ⟨o, ho⟩ := finish_run_covers objs stA i heA
      (by rw [show stA.offsets = List.replicate n none from rfl, List.length_replicate]
          exact hi)
      (by
        have hmem : i + 1 ∈ objs.map RefObj.id := by
          rw [hperm.mem_iff, List.mem_range'_1]
          omega
        rcases List.mem_map.mp hmem with ⟨r, hr, hid⟩
        exact ⟨r, hr, hid⟩)
    refine ⟨o, ?_, ?_⟩
    · rw [hprojO]
      exact ho
    · rw [hprojB]
      exact prefix_drop_append
        (fun hcon => decDigits_ne_nil (i + 1) (List.append_eq_nil.mp hcon).1)
        (hhdr.2 i o ho)

theorem C2_xref_entries_resolve_witness :
    (([RefObj.mk 1 "<< >>".toList []].map RefObj.id).Perm (List.range' 1 1))
    ∧ (runDoc (DocState.create 1 1 [0] "%PDF-1.3\n".toList)
        (permTrace 1 [RefObj.mk 1 "<< >>".toList []])).offsets.length = 1 :=
  ⟨by decide,
    (C2_xref_entries_resolve 1 [RefObj.mk 1 "<< >>".toList []] "%PDF-1.3\n".toList
      1 1 [0] (by decide)).2.1⟩

theorem wsE_spaceLeft (y sl tw : ℚ) (wc : Nat) (lw : ℚ) (ip : Option ℚ) :
    (wsE y sl tw wc lw ip).spaceLeft = sl := rfl

theorem wsE_lineWidth (y sl tw : ℚ) (wc : Nat) (lw : ℚ) (ip : Option ℚ) :
    (wsE y sl tw wc lw ip).lineWidth = 5 := rfl

theorem wsE_continuedX (y sl tw : ℚ) (wc : Nat) (lw : ℚ) (ip : Option ℚ) :
    (wsE y sl tw wc lw ip).continuedX = 0 := rfl

set_option maxHeartbeats 4000000 in
/-- C4 counterexample: with character widths 1/1/3 (`'a'`, space, `'b'`)
and a five-unit line, the text `"aa bbb"` leaves `spaceLeft = 2` when the
nine-unit word `"bbb"` arrives; the force split's first prefix-length
search returns 0 and, because `spaceLeft ≠ lineWidth`, the one-character
floor is not applied, so the callback receives an **empty** piece — a
piece that consumes no character of the word, contradicting the claim
that every emitted piece consumes at least one character. -/
theorem C4_counterexample :
    ((wrapText ctxC4e "aa bbb".toList [(3, false), (6, true)]
        (LWState.create ctxC4e 0 0)).map
      (fun r => r.fnLog.any (fun c => c.word.isEmpty && c.required))) = some true := by
  have h0 : wrapStart ctxC4e (LWState.create ctxC4e 0 0)
      = { ws := wsE 0 5 0 0 0 none, buffer := [], textWidth := 0, wc := 0, lc := 0
          yLocal := 0, lines := [], fnLog := [] } := by
    norm_num [wrapStart, LWState.create, ctxC4e, wsE]
    simp
  have h1 : wrapCallback ctxC4e ['a','a',' '] 3 false none
      { ws := wsE 0 5 0 0 0 none, buffer := [], textWidth := 0, wc := 0, lc := 0
        yLocal := 0, lines := [], fnLog := [] }
      = ({ ws := wsE 0 2 0 0 0 (some 0), buffer := ['a','a',' '], textWidth := 3, wc := 1
           lc := 0, yLocal := 0, lines := []
           fnLog := [FnCall.mk ['a','a',' '] 3 false 5] }, true) := by
    simp [wrapCallback, fireFirstLine, canFitW, wordWidthW, docWidthOfString, ctxC4e,
      wsE, SOFT_HYPHEN, HYPHEN]
    norm_num
  have h2 : wrapCallback ctxC4e [] 0 true (some false)
      { ws := wsE 0 2 0 0 0 (some 0), buffer := ['a','a',' '], textWidth := 3, wc := 1
        lc := 0, yLocal := 0, lines := []
        fnLog := [FnCall.mk ['a','a',' '] 3 false 5] }
      = ({ ws := wsE 1 5 3 2 5 none, buffer := [], textWidth := 0, wc := 0
           lc := 1, yLocal := 0
           lines := [EmittedLine.mk ['a','a',' '] Align.left true 3 2 5 0 0]
           fnLog := [FnCall.mk ['a','a',' '] 3 false 5, FnCall.mk [] 0 true 2] }, true) := by
    simp [wrapCallback, canFitW, wordWidthW, docWidthOfString, ctxC4e, wsE, SOFT_HYPHEN,
      HYPHEN, applyEllipsis, fireLastLine, emitLineR, fireLine, wrapCallbackReset,
      fragmentWordSpacing, EllOpt.truthy, jsIsWs]
    norm_num
    try simp
    try norm_num
    try simp
    try norm_num
  have h3 : wrapCallback ctxC4e ['b'] 3 true (some false)
      { ws := wsE 1 5 3 2 5 none, buffer := [], textWidth := 0, wc := 0
        lc := 1, yLocal := 0
        lines := [EmittedLine.mk ['a','a',' '] Align.left true 3 2 5 0 0]
        fnLog := [FnCall.mk ['a','a',' '] 3 false 5, FnCall.mk [] 0 true 2] }
      = ({ ws := wsE 2 5 3 1 5 none, buffer := [], textWidth := 0, wc := 0
           lc := 2, yLocal := 1
           lines := [EmittedLine.mk ['a','a',' '] Align.left true 3 2 5 0 0,
             EmittedLine.mk ['b'] Align.left true 3 1 5 0 1]
           fnLog := [FnCall.mk ['a','a',' '] 3 false 5, FnCall.mk [] 0 true 2,
             FnCall.mk ['b'] 3 true 5] }, true) := by
    simp [wrapCallback, canFitW, wordWidthW, docWidthOfString, ctxC4e, wsE, SOFT_HYPHEN,
      HYPHEN, applyEllipsis, fireLastLine, emitLineR, fireLine, wrapCallbackReset,
      fragmentWordSpacing, EllOpt.truthy, jsIsWs]
    norm_num
    try simp
    try norm_num
  have h4 : wrapCallback ctxC4e ['b'] 3 true (some false)
      { ws := wsE 2 5 3 1 5 none, buffer := [], textWidth := 0, wc := 0
        lc := 2, yLocal := 1
        lines := [EmittedLine.mk ['a','a',' '] Align.left true 3 2 5 0 0,
          EmittedLine.mk ['b'] Align.left true 3 1 5 0 1]
        fnLog := [FnCall.mk ['a','a',' '] 3 false 5, FnCall.mk [] 0 true 2,
          FnCall.mk ['b'] 3 true 5] }
      = ({ ws := wsE 3 5 3 1 5 none, buffer := [], textWidth := 0, wc := 0
           lc := 3, yLocal := 2
           lines := [EmittedLine.mk ['a','a',' '] Align.left true 3 2 5 0 0,
             EmittedLine.mk ['b'] Align.left true 3 1 5 0 1,
             EmittedLine.mk ['b'] Align.left true 3 1 5 0 2]
           fnLog := [FnCall.mk ['a','a',' '] 3 false 5, FnCall.mk [] 0 true 2,
             FnCall.mk ['b'] 3 true 5, FnCall.mk ['b'] 3 true 5] }, true) := by
    simp [wrapCallback, canFitW, wordWidthW, docWidthOfString, ctxC4e, wsE, SOFT_HYPHEN,
      HYPHEN, applyEllipsis, fireLastLine, emitLineR, fireLine, wrapCallbackReset,
      fragmentWordSpacing, EllOpt.truthy, jsIsWs]
    norm_num
    try simp
    try norm_num
  have h5 : wrapCallback ctxC4e ['b'] 3 true (some false)
      { ws := wsE 3 5 3 1 5 none, buffer := [], textWidth := 0, wc := 0
        lc := 3, yLocal := 2
        lines := [EmittedLine.mk ['a','a',' '] Align.left true 3 2 5 0 0,
          EmittedLine.mk ['b'] Align.left true 3 1 5 0 1,
          EmittedLine.mk ['b'] Align.left true 3 1 5 0 2]
        fnLog := [FnCall.mk ['a','a',' '] 3 false 5, FnCall.mk [] 0 true 2,
          FnCall.mk ['b'] 3 true 5, FnCall.mk ['b'] 3 true 5] }
      = ({ ws := wsE 4 5 3 1 5 none, buffer := [], textWidth := 0, wc := 0
           lc := 4, yLocal := 3
           lines := [EmittedLine.mk ['a','a',' '] Align.left true 3 2 5 0 0,
             EmittedLine.mk ['b'] Align.left true 3 1 5 0 1,
             EmittedLine.mk ['b'] Align.left true 3 1 5 0 2,
             EmittedLine.mk ['b'] Align.left true 3 1 5 0 3]
           fnLog := [FnCall.mk ['a','a',' '] 3 false 5, FnCall.mk [] 0 true 2,
             FnCall.mk ['b'] 3 true 5, FnCall.mk ['b'] 3 true 5,
             FnCall.mk ['b'] 3 true 5] }, true) := by
    simp [wrapCallback, canFitW, wordWidthW, docWidthOfString, ctxC4e, wsE, SOFT_HYPHEN,
      HYPHEN, applyEllipsis, fireLastLine, emitLineR, fireLine, wrapCallbackReset,
      fragmentWordSpacing, EllOpt.truthy, jsIsWs]
    norm_num
    try simp
    try norm_num
  have hw1 : wordWidthW ctxC4e (wsE 1 5 3 2 5 none) ['b','b','b'] = 9 := by
    simp [wordWidthW, docWidthOfString, ctxC4e, wsE]
    norm_num
  have hw2 : wordWidthW ctxC4e (wsE 2 5 3 1 5 none) ['b','b'] = 6 := by
    simp [wordWidthW, docWidthOfString, ctxC4e, wsE]
    norm_num
  have hw3 : wordWidthW ctxC4e (wsE 3 5 3 1 5 none) ['b'] = 3 := by
    simp [wordWidthW, docWidthOfString, ctxC4e, wsE]
    try norm_num
  have hA1 : adjustFit (wordWidthW ctxC4e (wsE 0 2 0 0 0 (some 0))) 2 ['b','b','b'] 9
      = (0, 0) := by
    have hc : (⌈(2:ℚ) / (9 / 3)⌉ : ℤ) = 1 := by
      rw [Int.ceil_eq_iff] <;> norm_num
    simp [adjustFit, growShrink, wordWidthW, docWidthOfString, ctxC4e, wsE, hc]
    norm_num
  have hA2 : adjustFit (wordWidthW ctxC4e (wsE 1 5 3 2 5 none)) 5 ['b','b','b'] 9
      = (1, 3) := by
    have hc : (⌈(5:ℚ) / (9 / 3)⌉ : ℤ) = 2 := by
      rw [Int.ceil_eq_iff] <;> norm_num
    simp [adjustFit, growShrink, wordWidthW, docWidthOfString, ctxC4e, wsE, hc]
    norm_num
  have hA3 : adjustFit (wordWidthW ctxC4e (wsE 2 5 3 1 5 none)) 5 ['b','b'] 6
      = (1, 3) := by
    have hc : (⌈(5:ℚ) / (6 / 2)⌉ : ℤ) = 2 := by
      rw [Int.ceil_eq_iff] <;> norm_num
    simp [adjustFit, growShrink, wordWidthW, docWidthOfString, ctxC4e, wsE, hc]
    norm_num
  have hA4 : adjustFit (wordWidthW ctxC4e (wsE 3 5 3 1 5 none)) 5 ['b'] 3
      = (1, 3) := by
    simp [adjustFit]
    norm_num
  have hch : chopWord ctxC4e (wrapCallback ctxC4e) true 9 ['b','b','b'] 9 (some false)
      { ws := wsE 0 2 0 0 0 (some 0), buffer := ['a','a',' '], textWidth := 3, wc := 1
        lc := 0, yLocal := 0, lines := []
        fnLog := [FnCall.mk ['a','a',' '] 3 false 5] }
      = some ({ ws := wsE 4 5 3 1 5 none, buffer := [], textWidth := 0, wc := 0
                lc := 4, yLocal := 3
                lines := [EmittedLine.mk ['a','a',' '] Align.left true 3 2 5 0 0,
                  EmittedLine.mk ['b'] Align.left true 3 1 5 0 1,
                  EmittedLine.mk ['b'] Align.left true 3 1 5 0 2,
                  EmittedLine.mk ['b'] Align.left true 3 1 5 0 3]
                fnLog := [FnCall.mk ['a','a',' '] 3 false 5, FnCall.mk [] 0 true 2,
                  FnCall.mk ['b'] 3 true 5, FnCall.mk ['b'] 3 true 5,
                  FnCall.mk ['b'] 3 true 5] }, true) := by
    norm_num [chopWord, hA1, hA2, hA3, hA4, hw1, hw2, hw3, h2, h3, h4, h5,
      wsE_spaceLeft, wsE_lineWidth]
  have hw0 : wordWidthW ctxC4e (wsE 0 5 0 0 0 none) ['a','a',' '] = 3 := by
    simp [wordWidthW, docWidthOfString, ctxC4e, wsE]
    try norm_num
  have hwB : wordWidthW ctxC4e (wsE 0 2 0 0 0 (some 0)) ['b','b','b'] = 9 := by
    simp [wordWidthW, docWidthOfString, ctxC4e, wsE]
    try norm_num
  have hcont : ctxC4e.optContinued = false := rfl
  have hsx : (wsE 4 5 3 1 5 none).startX = 0 := rfl
  simp only [wrapText]
  rw [h0]
  norm_num [eachWordGo, wrapFinish, h1, hch, hw0, hwB, wsE_lineWidth, wsE_continuedX,
    hcont, hsx]
